import Mathlib

/-! Shared Voronoi global planner: map fusion, replanning decision, path arbitration.

A shallow embedding of `src/shared_voronoi_global_planner.cpp`.

Modelling conventions.
* `double` values are rationals.  Arithmetic on them is exact (no rounding) everywhere
  except in `joystickExceedsThreshold`, whose comparison of line 567 is decided by the
  last bit: there every quotient, square and sum is rounded to binary64 (`Dbl.round`,
  round to nearest, ties to even, with overflow to an infinity).  The one other place
  where the control flow depends on an IEEE special value, the quotient
  `ang_diff_sq[i] / min_val` of `getMatchedPath`, is computed in `Dbl`, rationals
  extended with the two infinities and NaN.
* `int` values are integers; every coordinate and index of a grid that fits in memory
  is far from the 32-bit limits, so no wrap-around is modelled on them.  Where an
  `int` is added to a `uint32_t` and the sum is passed on as a `double` (the corner
  vertices of the local costmap) the sum is reduced modulo `2 ^ 32`.
* Undefined behaviour (an out-of-range `operator[]`, a division by zero on integers,
  a conversion of a non-finite `double` to `int`, dereferencing `end()`) is the
  result `none`.
* The functions of the C math library and `tf::getYaw` are parameters (`MathLib`); the
  statements that need a value of theirs say so in a hypothesis.
* The simulation loop of `getMatchedPath` is bounded by a fuel and returns `none` when
  it runs out; `simulate_terminates` and `simulate_fuel_mono` show that a positive time
  step needs finitely many iterations and that more fuel does not change the result.
  The loop variable of line 370 has no initial value in the source: the value it starts
  from is a parameter.
* The classes declared in the headers that are not part of the sources (`Map`,
  `GraphNode`, `Path`, the graph engine `voronoi_path`) are modelled from the way the
  source file uses them.
-/

namespace SharedVoronoi

/-! ## Data model -/

/-- Modelled from the spec: `voronoi_path::GraphNode`, whose declaration is in a header
that is not among the sources.  A grid coordinate pair; the source reads `x`, `y` as
`double` and compares two nodes with `==`. -/
structure GraphNode where
  x : ℚ
  y : ℚ
deriving DecidableEq

/-- Modelled from the spec: `voronoi_path::Path` (CandidatePath), declared in the missing
header; the source reads the identifier `id` and the waypoints `path`. -/
structure Path where
  id : Nat
  path : List GraphNode
deriving DecidableEq

/-- Modelled from the spec: `voronoi_path::Map` (GridMap), declared in the missing header:
width, height, resolution, origin, frame identifier and the row-major occupancy data. -/
structure Map where
  width : Int
  height : Int
  resolution : ℚ
  origin_x : ℚ
  origin_y : ℚ
  frame_id : String
  data : List Int
deriving DecidableEq

/-- The fields of `nav_msgs::OccupancyGrid` that the planner reads. -/
structure OccupancyGrid where
  frame_id : String
  width : Nat
  height : Nat
  resolution : ℚ
  origin_x : ℚ
  origin_y : ℚ
  data : List Int
deriving DecidableEq

/-- A `geometry_msgs::Quaternion`. -/
structure Quaternion where
  x : ℚ
  y : ℚ
  z : ℚ
  w : ℚ
deriving DecidableEq

/-- A `geometry_msgs::Pose`: position and orientation. -/
structure Pose where
  px : ℚ
  py : ℚ
  pz : ℚ
  orientation : Quaternion
deriving DecidableEq

/-- A `geometry_msgs::PoseStamped`; of the header only the frame is kept (the stamp is
the wall clock). -/
structure PoseStamped where
  frame_id : String
  pose : Pose
deriving DecidableEq

/-- The fields of `geometry_msgs::Twist` that the planner reads. -/
structure Twist where
  linear_x : ℚ
  angular_z : ℚ
deriving DecidableEq

/-- A `double` as far as `getMatchedPath` needs it: a finite value, an infinity or NaN. -/
inductive Dbl where
  | fin (q : ℚ)
  | pinf
  | ninf
  | nan
deriving DecidableEq

/-- The parameters read by `readParams` (and the member `near_goal_threshold`). -/
structure Params where
  occupancy_threshold : Int
  add_local_costmap_corners : Bool
  num_paths : Int
  xy_goal_tolerance : ℚ
  near_goal_threshold : ℚ
  path_waypoint_sep : ℚ
  joy_max_lin : ℚ
  joy_max_ang : ℚ
  joy_input_thresh : ℚ
  selection_threshold : ℚ
  forward_sim_time : ℚ
  forward_sim_resolution : ℚ

/-- Modelled from the spec: the GraphEngine collaborator (class `voronoi_path`, not among
the sources), as the interface the planner calls on an engine state `E`; the transform
primitive (`lookupTransform` followed by `tf2::doTransform`) and the deviation score that
the first half of `getMatchedPath` (lines 331-418, `cos`, `sin`, `atan2`) gives one
candidate path are carried along as two more collaborators. -/
structure GraphEngine (E : Type) where
  hasPreviousPaths : E → Bool
  clearPreviousPaths : E → E
  replan : E → GraphNode → GraphNode → Int → Nat → List Path × E
  getPath : E → GraphNode → GraphNode → Int → List Path × E
  interpolatePaths : E → List Path → ℚ → List Path × E
  getAllPathCosts : E → List Dbl
  setLocalVertices : E → List GraphNode → E
  transformToMap : String → PoseStamped → Pose
  pathDeviation : Twist → PoseStamped → List PoseStamped → ℚ

/-- A call on the graph engine, as recorded in the trace of `makePlan`. -/
inductive EngineCall where
  | hasPreviousPaths
  | clearPreviousPaths
  | replan (start goal : GraphNode) (num_paths : Int) (preferred : Nat)
  | getPath (start goal : GraphNode) (num_paths : Int)
  | interpolatePaths (paths : List Path) (sep : ℚ)
  | getAllPathCosts
deriving DecidableEq

/-- The members of `SharedVoronoiGlobalPlanner` that the modelled functions read or write,
together with the two function-local statics of `makePlan`. -/
structure Planner (E : Type) where
  map : Map
  local_costmap : OccupancyGrid
  map_pixels_backup : List (Int × Int)
  voronoi_path : E
  all_paths : List Path
  all_paths_meters : List (List PoseStamped)
  preferred_path : Nat
  prev_goal : GraphNode
  cmd_vel : Twist

/-! ## Map fusion: `localCostmapCB` -/

/-- Conversion of a `double` to `int`: truncation towards zero. -/
def truncToInt (q : ℚ) : Int := Int.tdiv q.num q.den

/-- Lines 448-454: `int x_pixel_offset = rel_local_x / map.resolution`. -/
def pixelOffset (mapOrigin localOrigin resolution : ℚ) : Option Int :=
  if resolution = 0 then none
  else some (truncToInt ((-mapOrigin + localOrigin) / resolution))

/-- Lines 480-482: the global linear index `global_curr_y * map.width + global_curr_x`
of local cell `i`. -/
def cellIndex (W : Int) (w : Nat) (xoff yoff : Int) (i : Nat) : Int :=
  (((i / w : Nat) : Int) + yoff) * W + (((i % w : Nat) : Int) + xoff)

/-- Lines 468-469: replay of the previous overlay patch, in recording order. -/
def restorePixels : List (Int × Int) → List Int → Option (List Int)
  | [], d => some d
  | (k, v) :: rest, d =>
    if 0 ≤ k ∧ k.toNat < d.length then restorePixels rest (d.set k.toNat v) else none

/-- Lines 474-486: the overlay loop from local cell `i` on; `cells` are the local cells
not yet visited, `d` is `map.data` and `b` is `map_pixels_backup`. -/
def overlayPixels (thr W : Int) (w : Nat) (xoff yoff : Int) :
    Nat → List Int → List Int → List (Int × Int) → Option (List Int × List (Int × Int))
  | _, [], d, b => some (d, b)
  | i, c :: cs, d, b =>
    if thr ≤ c then
      if w = 0 then none
      else if cellIndex W w xoff yoff i < 0 then none
      else
        match d[(cellIndex W w xoff yoff i).toNat]? with
        | none => none
        | some old =>
          overlayPixels thr W w xoff yoff (i + 1) cs
            (d.set (cellIndex W w xoff yoff i).toNat c) (b ++ [(cellIndex W w xoff yoff i, old)])
    else overlayPixels thr W w xoff yoff (i + 1) cs d b

/-- Reduction of an integer modulo `2 ^ 32` (arithmetic in `uint32_t`). -/
def toUInt32 (z : Int) : Int := z % 4294967296

/-- Lines 458-462: the four corners of the local costmap in global pixels. -/
def localVertices (xoff yoff : Int) (w h : Nat) : List GraphNode :=
  [ ⟨xoff, yoff⟩,
    ⟨toUInt32 (xoff + w), yoff⟩,
    ⟨toUInt32 (xoff + w), toUInt32 (yoff + h)⟩,
    ⟨xoff, toUInt32 (yoff + h)⟩ ]

/-- Lines 439-488: `localCostmapCB`. -/
def localCostmapCB {E : Type} (eng : GraphEngine E) (cfg : Params) (s : Planner E)
    (msg : OccupancyGrid) : Option (Planner E) :=
  if msg.data.isEmpty then some { s with local_costmap := msg }
  else
    match pixelOffset s.map.origin_x msg.origin_x s.map.resolution,
          pixelOffset s.map.origin_y msg.origin_y s.map.resolution with
    | some xoff, some yoff =>
      match restorePixels s.map_pixels_backup s.map.data with
      | none => none
      | some d0 =>
        match overlayPixels cfg.occupancy_threshold s.map.width msg.width xoff yoff 0
            msg.data d0 [] with
        | none => none
        | some (d1, b1) =>
          some { s with
            local_costmap := msg
            voronoi_path :=
              if cfg.add_local_costmap_corners then
                eng.setLocalVertices s.voronoi_path (localVertices xoff yoff msg.width msg.height)
              else s.voronoi_path
            map := { s.map with data := d1 }
            map_pixels_backup := b1 }
    | _, _ => none

/-- Lines 490-500: `globalCostmapCB`, a full replacement of the map. -/
def globalCostmapCB {E : Type} (s : Planner E) (msg : OccupancyGrid) : Planner E :=
  { s with map :=
      { width := msg.width, height := msg.height, frame_id := msg.frame_id,
        resolution := msg.resolution, origin_x := msg.origin_x, origin_y := msg.origin_y,
        data := msg.data } }

/-- Lines 502-513: `globalCostmapUpdateCB`, a replacement of the data followed by a
fusion of the stored local costmap. -/
def globalCostmapUpdateCB {E : Type} (eng : GraphEngine E) (cfg : Params) (s : Planner E)
    (data : List Int) : Option (Planner E) :=
  if data.isEmpty then some { s with map := { s.map with data := data } }
  else localCostmapCB eng cfg { s with map := { s.map with data := data } } s.local_costmap

/-! ## Asynchronous updates -/

/-- Lines 515-518: `cmdVelCB`. -/
def cmdVelCB {E : Type} (s : Planner E) (msg : Twist) : Planner E :=
  { s with cmd_vel := msg }

/-- Lines 550-557: `preferredPathCB`. -/
def preferredPathCB {E : Type} (s : Planner E) (data : Nat) : Planner E :=
  if data ≠ s.preferred_path then { s with preferred_path := data } else s

/-- Lines 559-562: `cancelCB`. -/
def cancelCB {E : Type} (eng : GraphEngine E) (s : Planner E) : Planner E :=
  { s with voronoi_path := eng.clearPreviousPaths s.voronoi_path }

/-! ## Path arbitration: the second half of `getMatchedPath` -/

/-- IEEE `<` on `Dbl`: false as soon as one side is NaN. -/
def Dbl.lt : Dbl → Dbl → Bool
  | .nan, _ => false
  | _, .nan => false
  | .fin a, .fin b => decide (a < b)
  | .ninf, .ninf => false
  | .ninf, _ => true
  | _, .ninf => false
  | .pinf, _ => false
  | .fin _, .pinf => true

/-- IEEE `>=` on `Dbl`: false as soon as one side is NaN. -/
def Dbl.ge : Dbl → Dbl → Bool
  | .nan, _ => false
  | _, .nan => false
  | a, b => !(Dbl.lt a b)

/-- IEEE quotient of two finite values, the divisor being `+0` when it is zero:
`x / 0` is an infinity of the sign of `x`, and `0 / 0` is NaN. -/
def Dbl.ofDiv (a b : ℚ) : Dbl :=
  if b = 0 then (if 0 < a then .pinf else if a < 0 then .ninf else .nan)
  else .fin (a / b)

/-- The scan of `std::min_element`: `bi`, `bv` are the position and value of the smallest
element so far, `i` is the position of the head of the remaining range. -/
def minElementFrom {α : Type} (lt : α → α → Bool) : Nat → α → Nat → List α → Nat
  | bi, _, _, [] => bi
  | bi, bv, i, x :: xs =>
    if lt x bv then minElementFrom lt i x (i + 1) xs else minElementFrom lt bi bv (i + 1) xs

/-- The position `std::min_element(begin, end) - begin`; `0` on an empty range, where
`min_element` returns `end`. -/
def minElementIdx {α : Type} (lt : α → α → Bool) : List α → Nat
  | [] => 0
  | x :: xs => minElementFrom lt 0 x 1 xs

/-- The value `*std::min_element(begin, end)`; dereferencing `end()` is undefined. -/
def minElementVal {α : Type} (lt : α → α → Bool) (l : List α) : Option α :=
  l[minElementIdx lt l]?

/-- Lines 423-427: the disqualification loop from path `i` on; `scores` are the deviation
scores not yet visited and `costs` is `total_costs`. -/
def penalise (selection_threshold min_val : ℚ) : Nat → List ℚ → List Dbl → Option (List Dbl)
  | _, [], costs => some costs
  | i, sc :: rest, costs =>
    if Dbl.ge (Dbl.ofDiv sc min_val) (.fin selection_threshold) then
      if i < costs.length then
        penalise selection_threshold min_val (i + 1) rest (costs.set i .pinf)
      else none
    else penalise selection_threshold min_val (i + 1) rest costs

/-- Lines 420-429 on given deviation scores `ang_diff_sq` and engine costs `total_costs`. -/
def selectMatched (selection_threshold : ℚ) (ang_diff_sq : List ℚ) (total_costs : List Dbl) :
    Option Nat :=
  match minElementVal (fun a b => decide (a < b)) ang_diff_sq with
  | none => none
  | some min_val =>
    match penalise selection_threshold min_val 0 ang_diff_sq total_costs with
    | none => none
    | some costs => some (minElementIdx Dbl.lt costs)

/-- Lines 328-430: `getMatchedPath`; the deviation score of each plan (lines 331-418) is
the collaborator `pathDeviation`. -/
def getMatchedPath {E : Type} (eng : GraphEngine E) (cfg : Params) (s : Planner E)
    (curr_pose : PoseStamped) (plans_ : List (List PoseStamped)) : Option Nat :=
  selectMatched cfg.selection_threshold
    (plans_.map (eng.pathDeviation s.cmd_vel curr_pose))
    (eng.getAllPathCosts s.voronoi_path)

/-! ## Binary64 arithmetic for `joystickExceedsThreshold` -/

/-- The number of binary digits of `n`, by repeated halving; `fuel` bounds the number of
halvings (`n` itself is always enough). -/
def bitLength : Nat → Nat → Nat
  | 0, _ => 0
  | fuel + 1, n => if n = 0 then 0 else bitLength fuel (n / 2) + 1

/-- The binary exponent `floor (log2 |q|)` of a non-zero rational. -/
def binaryExponent (q : ℚ) : Int :=
  if (2 : ℚ) ^ ((bitLength q.num.natAbs q.num.natAbs : Int) - (bitLength q.den q.den : Int))
      ≤ |q| then
    (bitLength q.num.natAbs q.num.natAbs : Int) - (bitLength q.den q.den : Int)
  else (bitLength q.num.natAbs q.num.natAbs : Int) - (bitLength q.den q.den : Int) - 1

/-- The integer nearest to `m`, a tie going to the even one. -/
def roundHalfEven (m : ℚ) : Int :=
  if m - m.floor < 1 / 2 then m.floor
  else if 1 / 2 < m - m.floor then m.floor + 1
  else if m.floor % 2 = 0 then m.floor else m.floor + 1

/-- The magnitude of the binary64 number nearest to `q ≠ 0` (ties to even), before the test
for overflow: 53 significant bits, and a least unit of `2 ^ -1074` in the subnormal
range. -/
def roundedMagnitude (q : ℚ) : ℚ :=
  (roundHalfEven (|q| / (2 : ℚ) ^ (max (binaryExponent q - 52) (-1074))) : ℚ) *
    (2 : ℚ) ^ (max (binaryExponent q - 52) (-1074))

/-- Rounding of an exact result to binary64 (round to nearest, ties to even); a magnitude
that rounds to `2 ^ 1024` overflows to an infinity.  The sign of a zero is not kept. -/
def Dbl.round (q : ℚ) : Dbl :=
  if q = 0 then .fin 0
  else if (2 : ℚ) ^ (1024 : Int) ≤ roundedMagnitude q then (if q < 0 then .ninf else .pinf)
  else .fin (if q < 0 then -roundedMagnitude q else roundedMagnitude q)

/-- IEEE division in binary64 (a zero divisor is `+0`). -/
def Dbl.div : Dbl → Dbl → Dbl
  | .nan, _ => .nan
  | _, .nan => .nan
  | .fin a, .fin b =>
    if b = 0 then (if 0 < a then .pinf else if a < 0 then .ninf else .nan)
    else Dbl.round (a / b)
  | .fin _, .pinf => .fin 0
  | .fin _, .ninf => .fin 0
  | .pinf, .fin b => if b < 0 then .ninf else .pinf
  | .ninf, .fin b => if b < 0 then .pinf else .ninf
  | .pinf, .pinf => .nan
  | .pinf, .ninf => .nan
  | .ninf, .pinf => .nan
  | .ninf, .ninf => .nan

/-- IEEE multiplication in binary64. -/
def Dbl.mul : Dbl → Dbl → Dbl
  | .nan, _ => .nan
  | _, .nan => .nan
  | .fin a, .fin b => Dbl.round (a * b)
  | .fin a, .pinf => if a = 0 then .nan else if a < 0 then .ninf else .pinf
  | .fin a, .ninf => if a = 0 then .nan else if a < 0 then .pinf else .ninf
  | .pinf, .fin b => if b = 0 then .nan else if b < 0 then .ninf else .pinf
  | .ninf, .fin b => if b = 0 then .nan else if b < 0 then .pinf else .ninf
  | .pinf, .pinf => .pinf
  | .pinf, .ninf => .ninf
  | .ninf, .pinf => .ninf
  | .ninf, .ninf => .pinf

/-- IEEE addition in binary64. -/
def Dbl.add : Dbl → Dbl → Dbl
  | .nan, _ => .nan
  | _, .nan => .nan
  | .fin a, .fin b => Dbl.round (a + b)
  | .fin _, .pinf => .pinf
  | .fin _, .ninf => .ninf
  | .pinf, .fin _ => .pinf
  | .ninf, .fin _ => .ninf
  | .pinf, .pinf => .pinf
  | .ninf, .ninf => .ninf
  | .pinf, .ninf => .nan
  | .ninf, .pinf => .nan

/-- The call `pow(x, 2)`: the square of `x` correctly rounded to binary64, which is what
the product `x * x` gives. -/
def Dbl.sq (x : Dbl) : Dbl := Dbl.mul x x

/-- Lines 564-568: `joystickExceedsThreshold`, every operation of line 567 rounded to
binary64: `pow(lin / max_lin, 2) + pow(ang / max_ang, 2) > pow(threshold, 2)`.  The four
arguments are the binary64 values the function receives. -/
def joystickExceedsThreshold (cmd_vel : Twist) (max_lin_command max_ang_command
    magnitude_threshold : ℚ) : Bool :=
  Dbl.lt (Dbl.sq (.fin magnitude_threshold))
    (Dbl.add (Dbl.sq (Dbl.div (.fin cmd_vel.linear_x) (.fin max_lin_command)))
      (Dbl.sq (Dbl.div (.fin cmd_vel.angular_z) (.fin max_ang_command))))

/-! ## Planning cycle: `makePlan` -/

/-- The comparison `sqrt(a) < t` of line 168, decided on the squares: `0 < t` and
`a < t * t` (see `sqrtLt_iff_sqrt_lt`). -/
def sqrtLt (a t : ℚ) : Bool := decide (0 < t ∧ a < t * t)

/-- Lines 161-164: a world position in global costmap pixels. -/
def toGrid (m : Map) (x y : ℚ) : GraphNode :=
  ⟨(x - m.origin_x) / m.resolution, (y - m.origin_y) / m.resolution⟩

/-- Lines 140-158: the goal in the map frame (only the pose is replaced). -/
def goalInMap {E : Type} (eng : GraphEngine E) (s : Planner E) (goal : PoseStamped) :
    PoseStamped :=
  if goal.frame_id ≠ s.map.frame_id then
    { goal with pose := eng.transformToMap s.map.frame_id goal }
  else goal

/-- Line 167: `pow(start.x - goal.x, 2) + pow(start.y - goal.y, 2)`. -/
def distSq (start_ goal_ : PoseStamped) : ℚ :=
  (start_.pose.px - goal_.pose.px) ^ 2 + (start_.pose.py - goal_.pose.py) ^ 2

/-- Line 168: the condition of the near-goal reuse branch. -/
def nearGoalReuse {E : Type} (cfg : Params) (s : Planner E) (start_ goal_ : PoseStamped) :
    Bool :=
  sqrtLt (distSq start_ goal_) cfg.xy_goal_tolerance &&
    decide (s.preferred_path < s.all_paths_meters.length)

/-- The planner after lines 166-187, the plan so far and the engine calls made. -/
structure Selection (E : Type) where
  state : Planner E
  plan : List PoseStamped
  calls : List EngineCall

/-- Lines 166-187: reuse near the goal, trim/replan, or fresh plan.  `plan` is the
vector the caller passed in. -/
def selectStrategy {E : Type} (eng : GraphEngine E) (cfg : Params) (s : Planner E)
    (start_ goal_ : PoseStamped) (plan : List PoseStamped) : Selection E :=
  let end_point := toGrid s.map goal_.pose.px goal_.pose.py
  let start_point := toGrid s.map start_.pose.px start_.pose.py
  if nearGoalReuse cfg s start_ goal_ then
    { state := s, plan := s.all_paths_meters.getD s.preferred_path [], calls := [] }
  else if eng.hasPreviousPaths s.voronoi_path && decide (s.prev_goal = end_point) then
    let r := eng.replan s.voronoi_path start_point end_point cfg.num_paths s.preferred_path
    { state := { s with all_paths := r.1, voronoi_path := r.2 }
      plan := plan
      calls := [.hasPreviousPaths,
                .replan start_point end_point cfg.num_paths s.preferred_path] }
  else
    let r := eng.getPath (eng.clearPreviousPaths s.voronoi_path) start_point end_point
      cfg.num_paths
    { state := { s with voronoi_path := r.2, preferred_path := 0, all_paths := r.1,
                        prev_goal := end_point }
      plan := plan
      calls := [.hasPreviousPaths, .clearPreviousPaths,
                .getPath start_point end_point cfg.num_paths] }

/-- Lines 243-250: one waypoint in world coordinates, orientation `w = 1`. -/
def toWorldPose (m : Map) (n : GraphNode) : PoseStamped :=
  { frame_id := m.frame_id
    pose := { px := n.x * m.resolution + m.origin_x, py := n.y * m.resolution + m.origin_y,
              pz := 0, orientation := ⟨0, 0, 0, 1⟩ } }

/-- Line 274: `all_paths_meters[i][0].pose.orientation = start_.pose.orientation`. -/
def setFirstOrientation (q : Quaternion) : List PoseStamped → List PoseStamped
  | [] => []
  | a :: t => { a with pose := { a.pose with orientation := q } } :: t

/-- Line 275: `all_paths_meters[i].back().pose.orientation = goal_.pose.orientation`. -/
def setLastOrientation (q : Quaternion) : List PoseStamped → List PoseStamped
  | [] => []
  | [a] => [{ a with pose := { a.pose with orientation := q } }]
  | a :: b :: t => a :: setLastOrientation q (b :: t)

/-- Lines 240-276: candidate `i` in world coordinates. -/
def toWorldPath (m : Map) (start_ goal_ : PoseStamped) (p : Path) : List PoseStamped :=
  setLastOrientation goal_.pose.orientation
    (setFirstOrientation start_.pose.orientation (p.path.map (toWorldPose m)))

/-- Lines 196-277: interpolation of the candidates and their conversion to world
coordinates; `st` is the planner after strategy selection. -/
def convertPaths {E : Type} (eng : GraphEngine E) (cfg : Params) (st : Planner E)
    (start_ goal_ : PoseStamped) : Planner E :=
  let r := eng.interpolatePaths st.voronoi_path st.all_paths cfg.path_waypoint_sep
  { st with
    all_paths := r.1
    voronoi_path := r.2
    all_paths_meters := r.1.map (toWorldPath st.map start_ goal_) }

/-- Line 298: the condition under which the operator's command arbitrates. -/
def intentActive {E : Type} (cfg : Params) (s : Planner E) (start_ goal_ : PoseStamped) :
    Bool :=
  joystickExceedsThreshold s.cmd_vel cfg.joy_max_lin cfg.joy_max_ang cfg.joy_input_thresh
    && decide (distSq start_ goal_ > cfg.near_goal_threshold ^ 2)

/-- Lines 296-304: the preferred index after arbitration. -/
def arbitrate {E : Type} (eng : GraphEngine E) (cfg : Params) (s : Planner E)
    (start_ goal_ : PoseStamped) : Option Nat :=
  if intentActive cfg s start_ goal_ then getMatchedPath eng cfg s start_ s.all_paths_meters
  else some s.preferred_path

/-- What `makePlan` leaves behind: the planner, the plan handed back, the return value
and the engine calls in the order they were made. -/
structure MakePlanOut (E : Type) where
  state : Planner E
  plan : List PoseStamped
  ok : Bool
  calls : List EngineCall

/-- Lines 132-326: `makePlan`.  `plan` is the vector the caller passed in; the
publications for visualisation are left out. -/
def makePlan {E : Type} (eng : GraphEngine E) (cfg : Params) (s : Planner E)
    (start goal : PoseStamped) (plan : List PoseStamped) : Option (MakePlanOut E) :=
  let start_ := start
  let goal_ := goalInMap eng s goal
  let sel := selectStrategy eng cfg s start_ goal_ plan
  if !sel.state.all_paths.isEmpty && sel.plan.isEmpty then
    let s1 := convertPaths eng cfg sel.state start_ goal_
    let calls1 := sel.calls ++ [.interpolatePaths sel.state.all_paths cfg.path_waypoint_sep]
    match arbitrate eng cfg s1 start_ goal_ with
    | none => none
    | some p =>
      let plan1 :=
        if p < s1.all_paths_meters.length then s1.all_paths_meters.getD p [] else sel.plan
      some { state := { s1 with preferred_path := p }
             plan := plan1
             ok := !plan1.isEmpty
             calls := if intentActive cfg s1 start_ goal_ then calls1 ++ [.getAllPathCosts]
                      else calls1 }
  else
    some { state := sel.state, plan := sel.plan, ok := !sel.plan.isEmpty, calls := sel.calls }

/-! ## Path arbitration: the first half of `getMatchedPath` -/

/-- The functions of `<cmath>` and `tf::getYaw` that `getMatchedPath` and `vectorAngle`
call, as parameters; their arguments and results are doubles, that is, rationals. -/
structure MathLib where
  cos : ℚ → ℚ
  sin : ℚ → ℚ
  sqrt : ℚ → ℚ
  atan2 : ℚ → ℚ → ℚ
  getYaw : Quaternion → ℚ

/-- Lines 432-437: `vectorAngle`. -/
def vectorAngle (lm : MathLib) (vec1 vec2 : ℚ × ℚ) : ℚ :=
  lm.atan2 (vec1.1 * vec2.2 - vec1.2 * vec2.1) (vec1.1 * vec2.1 + vec1.2 * vec2.2)

/-- Line 334: `time_interval = fabs(forward_sim_resolution / lin_x)` with `lin_x = 0.2`. -/
def timeInterval (cfg : Params) : ℚ := |cfg.forward_sim_resolution / (1 / 5)|

/-- Lines 356-366: the heading `theta` of the simulated motion. -/
def headingAngle (lm : MathLib) (cfg : Params) (cmd_vel : Twist) (curr_pose : PoseStamped) :
    ℚ :=
  let normalized_ang :=
    if cmd_vel.angular_z / cfg.joy_max_ang > 1 then 1 else cmd_vel.angular_z / cfg.joy_max_ang
  let normalized_lin :=
    if cmd_vel.linear_x / cfg.joy_max_lin > 1 then 1 else cmd_vel.linear_x / cfg.joy_max_lin
  lm.getYaw curr_pose.pose.orientation + lm.atan2 normalized_ang normalized_lin

/-- Lines 370-385: the simulation loop; `fuel` bounds the number of iterations, `curr_time`,
`x`, `y` and `user_path` are the loop state at the loop test.  `none` when the fuel runs
out. -/
def simulate (lm : MathLib) (theta forward_sim_time time_interval : ℚ) :
    Nat → ℚ → ℚ → ℚ → List (ℚ × ℚ) → Option (List (ℚ × ℚ))
  | 0, _, _, _, _ => none
  | fuel + 1, curr_time, x, y, user_path =>
    if curr_time ≤ forward_sim_time + 1 / 2 * time_interval then
      simulate lm theta forward_sim_time time_interval fuel
        ((if curr_time > forward_sim_time then forward_sim_time else curr_time) + time_interval)
        (x + 1 / 5 * lm.cos theta * time_interval)
        (y + 1 / 5 * lm.sin theta * time_interval)
        (user_path ++ [(x + 1 / 5 * lm.cos theta * time_interval,
                        y + 1 / 5 * lm.sin theta * time_interval)])
    else some user_path

/-- Lines 333-385: `user_path`.  The loop variable `curr_time` of line 370 is declared
without an initial value; the value it starts from is the parameter `curr_time`.  A zero
`time_interval` makes `int(forward_sim_time / time_interval)` undefined and a negative
count makes `reserve` throw: both are `none`. -/
def userPath (lm : MathLib) (cfg : Params) (fuel : Nat) (curr_time : ℚ) (cmd_vel : Twist)
    (curr_pose : PoseStamped) : Option (List (ℚ × ℚ)) :=
  if timeInterval cfg = 0 then none
  else if truncToInt (cfg.forward_sim_time / timeInterval cfg) < 0 then none
  else
    simulate lm (headingAngle lm cfg cmd_vel curr_pose) cfg.forward_sim_time (timeInterval cfg)
      fuel curr_time curr_pose.pose.px curr_pose.pose.py
      [(curr_pose.pose.px, curr_pose.pose.py)]

/-- Lines 394-395: `vec1`, the last point of `user_path` minus the first. -/
def intentVector (user_path : List (ℚ × ℚ)) : ℚ × ℚ :=
  ((user_path.getLastD (0, 0)).1 - (user_path.headD (0, 0)).1,
   (user_path.getLastD (0, 0)).2 - (user_path.headD (0, 0)).2)

/-- Lines 389-390: `max_s`. -/
def maxS (lm : MathLib) (user_path : List (ℚ × ℚ)) : ℚ :=
  lm.sqrt (((user_path.getLastD (0, 0)).1 - (user_path.headD (0, 0)).1) ^ 2 +
    ((user_path.getLastD (0, 0)).2 - (user_path.headD (0, 0)).2) ^ 2)

/-- Lines 406-407: the length `ds` of the segment from `a` to `b`. -/
def segmentLength (lm : MathLib) (a b : PoseStamped) : ℚ :=
  lm.sqrt ((a.pose.px - b.pose.px) ^ 2 + (a.pose.py - b.pose.py) ^ 2)

/-- Lines 413-414: `vec2`, the segment from `a` to `b`. -/
def segmentVector (a b : PoseStamped) : ℚ × ℚ :=
  (b.pose.px - a.pose.px, b.pose.py - a.pose.py)

/-- Lines 403-417: the loop over the points of one plan from point `j` on; `prev` is
`plans_[i][j - 1]`, the list holds `plans_[i][j]` and what follows, `curr_s_along_path` and
`acc` (`ang_diff_sq[i]`) are the loop state. -/
def angDiffLoop (lm : MathLib) (vec1 : ℚ × ℚ) (max_s : ℚ) :
    ℚ → ℚ → PoseStamped → List PoseStamped → ℚ
  | _, acc, _, [] => acc
  | curr_s_along_path, acc, prev, p :: rest =>
    if curr_s_along_path + segmentLength lm prev p > max_s then acc
    else
      angDiffLoop lm vec1 max_s (curr_s_along_path + segmentLength lm prev p)
        (acc + (vectorAngle lm vec1 (segmentVector prev p)) ^ 2) p rest

/-- Lines 398-418 for one plan: `ang_diff_sq[i]`. -/
def angDiffSq (lm : MathLib) (vec1 : ℚ × ℚ) (max_s : ℚ) : List PoseStamped → ℚ
  | [] => 0
  | p0 :: rest => angDiffLoop lm vec1 max_s 0 0 p0 rest

/-- Lines 328-430 with the first half spelled out: `getMatchedPath` on the math library
`lm`, the initial value `curr_time` of the simulation clock and the engine costs
`total_costs`. -/
def getMatchedPathWith (lm : MathLib) (cfg : Params) (fuel : Nat) (curr_time : ℚ)
    (total_costs : List Dbl) (cmd_vel : Twist) (curr_pose : PoseStamped)
    (plans_ : List (List PoseStamped)) : Option Nat :=
  match userPath lm cfg fuel curr_time cmd_vel curr_pose with
  | none => none
  | some user_path =>
    selectMatched cfg.selection_threshold
      (plans_.map (angDiffSq lm (intentVector user_path) (maxS lm user_path))) total_costs

/-- IEEE `<=` on `Dbl`: false as soon as one side is NaN. -/
def Dbl.le : Dbl → Dbl → Bool
  | .nan, _ => false
  | _, .nan => false
  | a, b => !(Dbl.lt b a)

/-! ## Vocabulary of the statements -/

/-- The local cells at or above the threshold among `cells`, each with its position (the
head of `cells` has position `i`), in ascending position. -/
def occupiedFrom (thr : Int) (i : Nat) (cells : List Int) : List (Nat × Int) :=
  (cells.enumFrom i).filter (fun p => decide (thr ≤ p.2))

/-- The cells of a local costmap that `localCostmapCB` copies: position and value. -/
def occupiedCells (thr : Int) (cells : List Int) : List (Nat × Int) :=
  occupiedFrom thr 0 cells

/-- Local cell `i` falls inside the global grid: its global column is in `[0, width)` and
its global row is in `[0, height)`. -/
def CellInGrid (m : Map) (w : Nat) (xoff yoff : Int) (i : Nat) : Prop :=
  0 ≤ ((i % w : Nat) : Int) + xoff ∧ ((i % w : Nat) : Int) + xoff < m.width ∧
  0 ≤ ((i / w : Nat) : Int) + yoff ∧ ((i / w : Nat) : Int) + yoff < m.height

/-- A non-empty local costmap `msg` whose cells all fall inside the populated global grid
`m`, the pixel offsets computed by `localCostmapCB` being `xoff`, `yoff`. -/
structure InBounds (m : Map) (msg : OccupancyGrid) (xoff yoff : Int) : Prop where
  nonempty : msg.data ≠ []
  local_size : msg.data.length = msg.width * msg.height
  map_size : (m.data.length : Int) = m.width * m.height
  xoff_eq : pixelOffset m.origin_x msg.origin_x m.resolution = some xoff
  yoff_eq : pixelOffset m.origin_y msg.origin_y m.resolution = some yoff
  in_grid : ∀ i, i < msg.data.length → CellInGrid m msg.width xoff yoff i

/-- Every entry of the overlay patch points inside `data`. -/
def PatchValid (b : List (Int × Int)) (data : List Int) : Prop :=
  ∀ p ∈ b, 0 ≤ p.1 ∧ p.1.toNat < data.length

/-- A toy graph engine for the worked examples: its state says whether it has previous
paths; `replan` and `getPath` hand back `paths`, `getAllPathCosts` hands back `costs`,
interpolation and the frame transform change nothing, every deviation score is `dev`. -/
def toyEngine (paths : List Path) (costs : List Dbl) (dev : ℚ) : GraphEngine Bool where
  hasPreviousPaths := fun e => e
  clearPreviousPaths := fun _ => false
  replan := fun _ _ _ _ _ => (paths, true)
  getPath := fun _ _ _ _ => (paths, true)
  interpolatePaths := fun e ps _ => (ps, e)
  getAllPathCosts := fun _ => costs
  setLocalVertices := fun e _ => e
  transformToMap := fun _ g => g.pose
  pathDeviation := fun _ _ _ => dev

/-- Worked example: a populated `2 x 2` global map at resolution `1`, origin `(0, 0)`. -/
def demoMap : Map :=
  { width := 2, height := 2, resolution := 1, origin_x := 0, origin_y := 0,
    frame_id := "map", data := [1, 2, 3, 4] }

/-- Worked example: a one-cell local costmap of value `v` with origin `(ox, oy)`. -/
def demoLocal (ox oy : ℚ) (v : Int) : OccupancyGrid :=
  { frame_id := "map", width := 1, height := 1, resolution := 1, origin_x := ox,
    origin_y := oy, data := [v] }

/-- Worked example: the parameters used in the examples (occupancy threshold `50`, three
requested paths, goal tolerance `1/2`, disqualification ratio `3/2`, intent horizon `1`
with steps of `1/10`). -/
def demoParams : Params :=
  { occupancy_threshold := 50, add_local_costmap_corners := false, num_paths := 3,
    xy_goal_tolerance := 1 / 2, near_goal_threshold := 1, path_waypoint_sep := 1,
    joy_max_lin := 1, joy_max_ang := 1, joy_input_thresh := 1 / 2,
    selection_threshold := 3 / 2, forward_sim_time := 1, forward_sim_resolution := 1 / 10 }

/-- Worked example: a planner over the toy engine holding map `m`, overlay patch `b`,
cached paths `paths` / `meters`, preferred index `pref` and stored goal `goal`; the operator
command is zero and the engine state is `e`. -/
def demoPlanner (m : Map) (b : List (Int × Int)) (e : Bool) (paths : List Path)
    (meters : List (List PoseStamped)) (pref : Nat) (goal : GraphNode) : Planner Bool :=
  { map := m, local_costmap := demoLocal 0 0 0, map_pixels_backup := b, voronoi_path := e,
    all_paths := paths, all_paths_meters := meters, preferred_path := pref,
    prev_goal := goal, cmd_vel := ⟨0, 0⟩ }

/-- Worked example: a pose at `(x, y)` in the map frame with the identity orientation. -/
def demoPose (x y : ℚ) : PoseStamped :=
  { frame_id := "map", pose := { px := x, py := y, pz := 0, orientation := ⟨0, 0, 0, 1⟩ } }

/-- Worked example: a planner with two cached paths towards the stored goal `(1, 1)`,
preferred index `1`, whose engine has previous paths. -/
def demoCached : Planner Bool :=
  demoPlanner demoMap [] true [⟨0, [⟨1, 1⟩]⟩, ⟨1, [⟨1, 1⟩]⟩]
    [[demoPose 1 1], [demoPose 1 0, demoPose 1 1]] 1 ⟨1, 1⟩

/-- Worked example: the toy engine answering every request with the single path `7` of
one waypoint `(0, 0)`. -/
def demoEngine : GraphEngine Bool := toyEngine [⟨7, [⟨0, 0⟩]⟩] [] 0

/-- The rank of a `Dbl` in the order `-inf < finite < +inf`; NaN, which has no place in
that order, is given the rank of `-inf` and is excluded wherever ranks are compared. -/
def Dbl.key : Dbl → WithBot (WithTop ℚ)
  | .fin q => ((q : WithTop ℚ) : WithBot (WithTop ℚ))
  | .pinf => ((⊤ : WithTop ℚ) : WithBot (WithTop ℚ))
  | .ninf => ⊥
  | .nan => ⊥

/-- Worked example: a coarse rational math library, exact where the examples call it
(`cos 0 = 1`, `sin 0 = 0`, `atan2 0 x = 0` for `x > 0`, `atan2 y 0` the double nearest to
`pi / 2` for `y > 0`, `sqrt` on squares of rationals, `getYaw` of the identity `0`) and a
truncated series or a rough quotient elsewhere. -/
def demoMath : MathLib where
  cos := fun x => 1 - x ^ 2 / 2 + x ^ 4 / 24
  sin := fun x => x - x ^ 3 / 6
  sqrt := fun q => (Nat.sqrt q.num.toNat : ℚ) / (Nat.sqrt q.den : ℚ)
  atan2 := fun y x =>
    if 0 < x then (y / x) / (1 + 7 / 25 * (y / x) ^ 2)
    else if x < 0 then
      (if 0 ≤ y then (y / x) / (1 + 7 / 25 * (y / x) ^ 2) + 884279719003555 / 281474976710656
       else (y / x) / (1 + 7 / 25 * (y / x) ^ 2) - 884279719003555 / 281474976710656)
    else if 0 < y then 884279719003555 / 562949953421312
    else if y < 0 then -(884279719003555 / 562949953421312)
    else 0
  getYaw := fun q =>
    if 0 < 1 - 2 * (q.y ^ 2 + q.z ^ 2) then
      (2 * (q.w * q.z + q.x * q.y) / (1 - 2 * (q.y ^ 2 + q.z ^ 2))) /
        (1 + 7 / 25 * (2 * (q.w * q.z + q.x * q.y) / (1 - 2 * (q.y ^ 2 + q.z ^ 2))) ^ 2)
    else 0

theorem occupiedFrom_nil (thr : Int) (i : Nat) : occupiedFrom thr i [] = [] := rfl

theorem occupiedFrom_cons_pos (thr : Int) (i : Nat) (c : Int) (cs : List Int) (h : thr ≤ c) :
    occupiedFrom thr i (c :: cs) = (i, c) :: occupiedFrom thr (i + 1) cs := by
  simp [occupiedFrom, List.enumFrom_cons, List.filter_cons, h]

theorem occupiedFrom_cons_neg (thr : Int) (i : Nat) (c : Int) (cs : List Int) (h : ¬ thr ≤ c) :
    occupiedFrom thr i (c :: cs) = occupiedFrom thr (i + 1) cs := by
  simp [occupiedFrom, List.enumFrom_cons, List.filter_cons, h]

theorem mem_occupiedFrom {thr : Int} {i : Nat} {cells : List Int} {p : Nat × Int}
    (h : p ∈ occupiedFrom thr i cells) :
    i ≤ p.1 ∧ p.1 < i + cells.length ∧ cells[p.1 - i]? = some p.2 ∧ thr ≤ p.2 := by
  obtain ⟨j, c⟩ := p
  simp only [occupiedFrom, List.mem_filter, decide_eq_true_eq] at h
  obtain ⟨h1, h2, h3⟩ := List.mem_enumFrom h.1
  refine ⟨h1, h2, ?_, h.2⟩
  have hlt : j - i < cells.length := by omega
  simp [List.getElem?_eq_getElem hlt, h3]

theorem restorePixels_isSome (b : List (Int × Int)) :
    ∀ d : List Int, PatchValid b d →
      ∃ d0, restorePixels b d = some d0 ∧ d0.length = d.length := by
  induction b with
  | nil => intro d _; exact ⟨d, rfl, rfl⟩
  | cons p rest ih =>
    intro d h
    obtain ⟨k, v⟩ := p
    have hk := h (k, v) (List.mem_cons_self _ _)
    have hrest : PatchValid rest (d.set k.toNat v) := by
      intro q hq
      have := h q (List.mem_cons_of_mem _ hq)
      simpa using this
    obtain ⟨d0, h1, h2⟩ := ih _ hrest
    refine ⟨d0, ?_, by simpa using h2⟩
    simp only [restorePixels]
    rw [if_pos hk]
    exact h1

theorem restorePixels_undo (b : List (Int × Int)) (d : List Int) :
    ∀ x : List Int, x.length = d.length →
      (∀ p ∈ b, 0 ≤ p.1 ∧ d[p.1.toNat]? = some p.2) →
      (∀ k : Nat, (∀ p ∈ b, p.1 ≠ (k : Int)) → x[k]? = d[k]?) →
      restorePixels b x = some d := by
  induction b with
  | nil =>
    intro x _ _ hx
    have : x = d := List.ext_getElem? (fun k => hx k (by simp))
    simp [restorePixels, this]
  | cons p rest ih =>
    intro x hlen hb hx
    obtain ⟨k, v⟩ := p
    obtain ⟨hk0, hkv⟩ := hb (k, v) (List.mem_cons_self _ _)
    have hklt : k.toNat < d.length := by
      obtain ⟨h, _⟩ := List.getElem?_eq_some.mp hkv
      exact h
    simp only [restorePixels]
    rw [if_pos ⟨hk0, by omega⟩]
    apply ih
    · simpa using hlen
    · intro q hq
      exact hb q (List.mem_cons_of_mem _ hq)
    · intro j hj
      by_cases hjk : k.toNat = j
      · subst hjk
        rw [List.getElem?_set, if_pos rfl, if_pos (by omega)]
        exact hkv.symm
      · rw [List.getElem?_set_ne hjk]
        apply hx
        intro q hq
        rcases List.mem_cons.mp hq with rfl | hq
        · show k ≠ (j : Int)
          omega
        · exact hj q hq

theorem overlayPixels_frame (thr W : Int) (w : Nat) (xoff yoff : Int) (hw : 0 < w)
    (cells : List Int) :
    ∀ (i : Nat) (d : List Int) (b : List (Int × Int)),
      (∀ p ∈ occupiedFrom thr i cells,
        0 ≤ cellIndex W w xoff yoff p.1 ∧ (cellIndex W w xoff yoff p.1).toNat < d.length) →
      ∃ d1 e, overlayPixels thr W w xoff yoff i cells d b = some (d1, b ++ e) ∧
        d1.length = d.length ∧
        e.map Prod.fst = (occupiedFrom thr i cells).map (fun p => cellIndex W w xoff yoff p.1) ∧
        ∀ k : Nat, (∀ p ∈ occupiedFrom thr i cells, cellIndex W w xoff yoff p.1 ≠ (k : Int)) →
          d1[k]? = d[k]? := by
  induction cells with
  | nil =>
    intro i d b _
    exact ⟨d, [], by simp [overlayPixels], rfl, by simp [occupiedFrom_nil], fun _ _ => rfl⟩
  | cons c cs ih =>
    intro i d b hv
    by_cases hc : thr ≤ c
    · rw [occupiedFrom_cons_pos thr i c cs hc] at hv ⊢
      obtain ⟨hk0, hklt⟩ := hv (i, c) (List.mem_cons_self _ _)
      simp only at hk0 hklt
      have hv1 : ∀ p ∈ occupiedFrom thr (i + 1) cs,
          0 ≤ cellIndex W w xoff yoff p.1 ∧
          (cellIndex W w xoff yoff p.1).toNat <
            (d.set (cellIndex W w xoff yoff i).toNat c).length := by
        intro q hq
        simpa using hv q (List.mem_cons_of_mem _ hq)
      obtain ⟨d1, e, h1, h2, h3, h4⟩ :=
        ih (i + 1) (d.set (cellIndex W w xoff yoff i).toNat c)
          (b ++ [(cellIndex W w xoff yoff i, d[(cellIndex W w xoff yoff i).toNat])]) hv1
      refine ⟨d1, (cellIndex W w xoff yoff i, d[(cellIndex W w xoff yoff i).toNat]) :: e,
        ?_, by simpa using h2, by simp [h3], ?_⟩
      · simp only [overlayPixels]
        rw [if_pos hc, if_neg (by omega), if_neg (by omega), List.getElem?_eq_getElem hklt]
        simp only [h1]
        simp
      · intro k hk
        rw [h4 k (fun q hq => hk q (List.mem_cons_of_mem _ hq))]
        have hne := hk (i, c) (List.mem_cons_self _ _)
        simp only at hne
        exact List.getElem?_set_ne (by omega)
    · rw [occupiedFrom_cons_neg thr i c cs hc] at hv ⊢
      obtain ⟨d1, e, h1, h2, h3, h4⟩ := ih (i + 1) d b hv
      refine ⟨d1, e, ?_, h2, h3, h4⟩
      simp only [overlayPixels]
      rw [if_neg hc]
      exact h1

theorem overlayPixels_exact (thr W : Int) (w : Nat) (xoff yoff : Int) (hw : 0 < w)
    (cells : List Int) :
    ∀ (i : Nat) (d : List Int) (b : List (Int × Int)),
      (∀ p ∈ occupiedFrom thr i cells,
        0 ≤ cellIndex W w xoff yoff p.1 ∧ (cellIndex W w xoff yoff p.1).toNat < d.length) →
      ((occupiedFrom thr i cells).map (fun p => cellIndex W w xoff yoff p.1)).Nodup →
      ∃ d1, overlayPixels thr W w xoff yoff i cells d b =
          some (d1, b ++ (occupiedFrom thr i cells).map (fun p =>
            (cellIndex W w xoff yoff p.1, d.getD (cellIndex W w xoff yoff p.1).toNat 0))) ∧
        d1.length = d.length ∧
        (∀ p ∈ occupiedFrom thr i cells,
          d1[(cellIndex W w xoff yoff p.1).toNat]? = some p.2) ∧
        ∀ k : Nat, (∀ p ∈ occupiedFrom thr i cells, cellIndex W w xoff yoff p.1 ≠ (k : Int)) →
          d1[k]? = d[k]? := by
  induction cells with
  | nil =>
    intro i d b _ _
    exact ⟨d, by simp [overlayPixels, occupiedFrom_nil], rfl, by simp [occupiedFrom_nil],
      fun _ _ => rfl⟩
  | cons c cs ih =>
    intro i d b hv hnd
    by_cases hc : thr ≤ c
    · rw [occupiedFrom_cons_pos thr i c cs hc] at hv hnd ⊢
      obtain ⟨hk0, hklt⟩ := hv (i, c) (List.mem_cons_self _ _)
      simp only at hk0 hklt
      rw [List.map_cons, List.nodup_cons] at hnd
      obtain ⟨hnotin, hnd1⟩ := hnd
      have hdiff : ∀ q ∈ occupiedFrom thr (i + 1) cs,
          cellIndex W w xoff yoff q.1 ≠ cellIndex W w xoff yoff i := by
        intro q hq heq
        exact hnotin (List.mem_map.mpr ⟨q, hq, heq⟩)
      have hv1 : ∀ p ∈ occupiedFrom thr (i + 1) cs,
          0 ≤ cellIndex W w xoff yoff p.1 ∧
          (cellIndex W w xoff yoff p.1).toNat <
            (d.set (cellIndex W w xoff yoff i).toNat c).length := by
        intro q hq
        simpa using hv q (List.mem_cons_of_mem _ hq)
      obtain ⟨d1, h1, h2, h3, h4⟩ :=
        ih (i + 1) (d.set (cellIndex W w xoff yoff i).toNat c)
          (b ++ [(cellIndex W w xoff yoff i, d[(cellIndex W w xoff yoff i).toNat])]) hv1 hnd1
      have hmap : (occupiedFrom thr (i + 1) cs).map (fun p =>
            (cellIndex W w xoff yoff p.1,
              (d.set (cellIndex W w xoff yoff i).toNat c).getD
                (cellIndex W w xoff yoff p.1).toNat 0)) =
          (occupiedFrom thr (i + 1) cs).map (fun p =>
            (cellIndex W w xoff yoff p.1, d.getD (cellIndex W w xoff yoff p.1).toNat 0)) := by
        apply List.map_congr_left
        intro q hq
        have hq0 := (hv q (List.mem_cons_of_mem _ hq)).1
        have hqne := hdiff q hq
        have hne : (cellIndex W w xoff yoff i).toNat ≠ (cellIndex W w xoff yoff q.1).toNat := by
          omega
        simp only [List.getD_eq_getElem?_getD, List.getElem?_set_ne hne]
      refine ⟨d1, ?_, by simpa using h2, ?_, ?_⟩
      · simp only [overlayPixels]
        rw [if_pos hc, if_neg (by omega), if_neg (by omega), List.getElem?_eq_getElem hklt]
        simp only [h1, hmap]
        simp [List.getD_eq_getElem?_getD, List.getElem?_eq_getElem hklt]
      · intro q hq
        rcases List.mem_cons.mp hq with rfl | hq
        · simp only
          rw [h4 _ (fun r hr => by
            have := hdiff r hr
            omega)]
          rw [List.getElem?_set, if_pos rfl, if_pos hklt]
        · exact h3 q hq
      · intro k hk
        rw [h4 k (fun q hq => hk q (List.mem_cons_of_mem _ hq))]
        have hne := hk (i, c) (List.mem_cons_self _ _)
        simp only at hne
        exact List.getElem?_set_ne (by omega)
    · rw [occupiedFrom_cons_neg thr i c cs hc] at hv hnd ⊢
      obtain ⟨d1, h1, h2, h3, h4⟩ := ih (i + 1) d b hv hnd
      refine ⟨d1, ?_, h2, h3, h4⟩
      simp only [overlayPixels]
      rw [if_neg hc]
      exact h1

/-! ## Lemmas on the cell index -/

theorem cellIndex_valid (m : Map) (w : Nat) (xoff yoff : Int) (i : Nat)
    (hsz : (m.data.length : Int) = m.width * m.height) (h : CellInGrid m w xoff yoff i) :
    0 ≤ cellIndex m.width w xoff yoff i ∧
      (cellIndex m.width w xoff yoff i).toNat < m.data.length := by
  obtain ⟨hc0, hc1, hr0, hr1⟩ := h
  have hW : 0 < m.width := by omega
  have h0 : 0 ≤ (((i / w : Nat) : Int) + yoff) * m.width := mul_nonneg hr0 hW.le
  have h1 : (((i / w : Nat) : Int) + yoff) * m.width ≤ (m.height - 1) * m.width :=
    mul_le_mul_of_nonneg_right (by omega) hW.le
  have h2 : (m.height - 1) * m.width = m.width * m.height - m.width := by ring
  unfold cellIndex
  constructor
  · omega
  · omega

theorem cellIndex_inj (m : Map) (w : Nat) (xoff yoff : Int) (i j : Nat)
    (hi : CellInGrid m w xoff yoff i) (hj : CellInGrid m w xoff yoff j)
    (h : cellIndex m.width w xoff yoff i = cellIndex m.width w xoff yoff j) : i = j := by
  obtain ⟨ic0, ic1, ir0, ir1⟩ := hi
  obtain ⟨jc0, jc1, jr0, jr1⟩ := hj
  unfold cellIndex at h
  have hW : 0 < m.width := by omega
  have hrow : ((i / w : Nat) : Int) + yoff = ((j / w : Nat) : Int) + yoff := by
    rcases lt_trichotomy (((i / w : Nat) : Int) + yoff) (((j / w : Nat) : Int) + yoff)
      with hlt | heq | hgt
    · have : (((i / w : Nat) : Int) + yoff + 1) * m.width ≤
          (((j / w : Nat) : Int) + yoff) * m.width :=
        mul_le_mul_of_nonneg_right (by omega) hW.le
      have e : (((i / w : Nat) : Int) + yoff + 1) * m.width =
          (((i / w : Nat) : Int) + yoff) * m.width + m.width := by ring
      omega
    · exact heq
    · have : (((j / w : Nat) : Int) + yoff + 1) * m.width ≤
          (((i / w : Nat) : Int) + yoff) * m.width :=
        mul_le_mul_of_nonneg_right (by omega) hW.le
      have e : (((j / w : Nat) : Int) + yoff + 1) * m.width =
          (((j / w : Nat) : Int) + yoff) * m.width + m.width := by ring
      omega
  have hcol : ((i % w : Nat) : Int) + xoff = ((j % w : Nat) : Int) + xoff := by
    rw [hrow] at h
    omega
  have hd : i / w = j / w := by omega
  have hm : i % w = j % w := by omega
  have e1 := Nat.div_add_mod i w
  have e2 := Nat.div_add_mod j w
  rw [hd, hm] at e1
  omega

theorem InBounds.width_pos {m : Map} {msg : OccupancyGrid} {xoff yoff : Int}
    (h : InBounds m msg xoff yoff) : 0 < msg.width := by
  have h1 := h.local_size
  have h2 : msg.data.length ≠ 0 := by
    intro h0
    exact h.nonempty (List.length_eq_zero.mp h0)
  rcases Nat.eq_zero_or_pos msg.width with h0 | hpos
  · rw [h0, Nat.zero_mul] at h1
    exact absurd h1 h2
  · exact hpos

theorem InBounds.occupied_in_grid {m : Map} {msg : OccupancyGrid} {xoff yoff : Int}
    (h : InBounds m msg xoff yoff) (thr : Int) (p : Nat × Int)
    (hp : p ∈ occupiedCells thr msg.data) : CellInGrid m msg.width xoff yoff p.1 := by
  have := mem_occupiedFrom hp
  exact h.in_grid p.1 (by omega)

theorem InBounds.with_data {m : Map} {msg : OccupancyGrid} {xoff yoff : Int}
    (h : InBounds m msg xoff yoff) (d : List Int) (hd : d.length = m.data.length) :
    InBounds { m with data := d } msg xoff yoff :=
  { nonempty := h.nonempty
    local_size := h.local_size
    map_size := by simpa [hd] using h.map_size
    xoff_eq := h.xoff_eq
    yoff_eq := h.yoff_eq
    in_grid := h.in_grid }

theorem occupiedFrom_keys_nodup (m : Map) (w : Nat) (xoff yoff : Int) (thr : Int)
    (cells : List Int) :
    ∀ i : Nat, (∀ p ∈ occupiedFrom thr i cells, CellInGrid m w xoff yoff p.1) →
      ((occupiedFrom thr i cells).map (fun p => cellIndex m.width w xoff yoff p.1)).Nodup := by
  induction cells with
  | nil => intro i _; simp [occupiedFrom_nil]
  | cons c cs ih =>
    intro i hg
    by_cases hc : thr ≤ c
    · rw [occupiedFrom_cons_pos thr i c cs hc] at hg ⊢
      rw [List.map_cons, List.nodup_cons]
      refine ⟨?_, ih (i + 1) (fun q hq => hg q (List.mem_cons_of_mem _ hq))⟩
      intro hmem
      obtain ⟨q, hq, heq⟩ := List.mem_map.mp hmem
      have hqi : q.1 = i :=
        cellIndex_inj m w xoff yoff q.1 i (hg q (List.mem_cons_of_mem _ hq))
          (hg (i, c) (List.mem_cons_self _ _)) heq
      have := (mem_occupiedFrom hq).1
      omega
    · rw [occupiedFrom_cons_neg thr i c cs hc] at hg ⊢
      exact ih (i + 1) hg

/-! ## One fusion cycle -/

theorem localCostmapCB_eq {E : Type} (eng : GraphEngine E) (cfg : Params) (s : Planner E)
    (msg : OccupancyGrid) (xoff yoff : Int) (d0 d1 : List Int) (b1 : List (Int × Int))
    (hne : msg.data ≠ [])
    (hx : pixelOffset s.map.origin_x msg.origin_x s.map.resolution = some xoff)
    (hy : pixelOffset s.map.origin_y msg.origin_y s.map.resolution = some yoff)
    (hr : restorePixels s.map_pixels_backup s.map.data = some d0)
    (ho : overlayPixels cfg.occupancy_threshold s.map.width msg.width xoff yoff 0 msg.data d0 []
      = some (d1, b1)) :
    localCostmapCB eng cfg s msg =
      some { s with
        local_costmap := msg
        voronoi_path :=
          if cfg.add_local_costmap_corners then
            eng.setLocalVertices s.voronoi_path (localVertices xoff yoff msg.width msg.height)
          else s.voronoi_path
        map := { s.map with data := d1 }
        map_pixels_backup := b1 } := by
  have he : msg.data.isEmpty = false := by
    cases hd : msg.data with
    | nil => exact absurd hd hne
    | cons a t => rfl
  simp only [localCostmapCB, he, hx, hy, hr, ho]
  simp

theorem overlayPixels_in_bounds (m : Map) (msg : OccupancyGrid) (xoff yoff : Int)
    (h : InBounds m msg xoff yoff) (thr : Int) (d0 : List Int)
    (hlen : d0.length = m.data.length) :
    ∃ d1, overlayPixels thr m.width msg.width xoff yoff 0 msg.data d0 [] =
        some (d1, (occupiedCells thr msg.data).map (fun p =>
          (cellIndex m.width msg.width xoff yoff p.1,
            d0.getD (cellIndex m.width msg.width xoff yoff p.1).toNat 0))) ∧
      d1.length = d0.length ∧
      (∀ p ∈ occupiedCells thr msg.data,
        d1[(cellIndex m.width msg.width xoff yoff p.1).toNat]? = some p.2) ∧
      ∀ k : Nat, (∀ p ∈ occupiedCells thr msg.data,
          cellIndex m.width msg.width xoff yoff p.1 ≠ (k : Int)) → d1[k]? = d0[k]? := by
  have hv : ∀ p ∈ occupiedFrom thr 0 msg.data,
      0 ≤ cellIndex m.width msg.width xoff yoff p.1 ∧
      (cellIndex m.width msg.width xoff yoff p.1).toNat < d0.length := by
    intro p hp
    rw [hlen]
    exact cellIndex_valid m msg.width xoff yoff p.1 h.map_size (h.occupied_in_grid thr p hp)
  have hnd := occupiedFrom_keys_nodup m msg.width xoff yoff thr msg.data 0
    (fun p hp => h.occupied_in_grid thr p hp)
  obtain ⟨d1, h1, h2, h3, h4⟩ :=
    overlayPixels_exact thr m.width msg.width xoff yoff h.width_pos msg.data 0 d0 [] hv hnd
  exact ⟨d1, by simpa [occupiedCells] using h1, h2, h3, h4⟩

theorem restorePixels_patch (m : Map) (msg : OccupancyGrid) (xoff yoff : Int)
    (h : InBounds m msg xoff yoff) (thr : Int) (d0 d1 : List Int)
    (hlen0 : d0.length = m.data.length) (hlen1 : d1.length = d0.length)
    (hframe : ∀ k : Nat, (∀ p ∈ occupiedCells thr msg.data,
      cellIndex m.width msg.width xoff yoff p.1 ≠ (k : Int)) → d1[k]? = d0[k]?) :
    restorePixels ((occupiedCells thr msg.data).map (fun p =>
        (cellIndex m.width msg.width xoff yoff p.1,
          d0.getD (cellIndex m.width msg.width xoff yoff p.1).toNat 0))) d1 = some d0 := by
  apply restorePixels_undo _ d0 d1 hlen1
  · intro q hq
    obtain ⟨p, hp, rfl⟩ := List.mem_map.mp hq
    have hv := cellIndex_valid m msg.width xoff yoff p.1 h.map_size (h.occupied_in_grid thr p hp)
    refine ⟨hv.1, ?_⟩
    have hlt : (cellIndex m.width msg.width xoff yoff p.1).toNat < d0.length := by
      rw [hlen0]; exact hv.2
    simp [List.getD_eq_getElem?_getD, List.getElem?_eq_getElem hlt]
  · intro k hk
    apply hframe
    intro p hp
    exact hk _ (List.mem_map.mpr ⟨p, hp, rfl⟩)

theorem localCostmapCB_cycle {E : Type} (eng : GraphEngine E) (cfg : Params) (s : Planner E)
    (msg : OccupancyGrid) (xoff yoff : Int) (h : InBounds s.map msg xoff yoff)
    (d0 : List Int) (hr : restorePixels s.map_pixels_backup s.map.data = some d0)
    (hlen : d0.length = s.map.data.length) :
    ∃ s1, localCostmapCB eng cfg s msg = some s1 ∧
      s1.map = { s.map with data := s1.map.data } ∧
      s1.map.data.length = s.map.data.length ∧
      overlayPixels cfg.occupancy_threshold s.map.width msg.width xoff yoff 0 msg.data d0 [] =
        some (s1.map.data, s1.map_pixels_backup) ∧
      s1.map_pixels_backup = (occupiedCells cfg.occupancy_threshold msg.data).map (fun p =>
        (cellIndex s.map.width msg.width xoff yoff p.1,
          d0.getD (cellIndex s.map.width msg.width xoff yoff p.1).toNat 0)) ∧
      (∀ p ∈ occupiedCells cfg.occupancy_threshold msg.data,
        s1.map.data[(cellIndex s.map.width msg.width xoff yoff p.1).toNat]? = some p.2) ∧
      (∀ k : Nat, (∀ p ∈ occupiedCells cfg.occupancy_threshold msg.data,
          cellIndex s.map.width msg.width xoff yoff p.1 ≠ (k : Int)) →
        s1.map.data[k]? = d0[k]?) ∧
      restorePixels s1.map_pixels_backup s1.map.data = some d0 := by
  obtain ⟨d1, ho, hl, hv, hf⟩ :=
    overlayPixels_in_bounds s.map msg xoff yoff h cfg.occupancy_threshold d0 hlen
  have e := localCostmapCB_eq eng cfg s msg xoff yoff d0 d1 _ h.nonempty h.xoff_eq h.yoff_eq
    hr ho
  have hr2 := restorePixels_patch s.map msg xoff yoff h cfg.occupancy_threshold d0 d1 hlen hl hf
  exact ⟨_, e, rfl, hl.trans hlen, ho, rfl, hv, hf, hr2⟩

theorem InBounds.transfer {m m1 : Map} {msg : OccupancyGrid} {xoff yoff : Int}
    (h : InBounds m msg xoff yoff) (hm : m1 = { m with data := m1.data })
    (hd : m1.data.length = m.data.length) : InBounds m1 msg xoff yoff := by
  rw [hm]
  exact h.with_data m1.data hd

/-! ## Worked inputs -/

theorem pixelOffset_unit (a : Int) : pixelOffset 0 (a : ℚ) 1 = some a := by
  simp [pixelOffset, truncToInt]

theorem demoLocal_inBounds (a b : Int) (v : Int) (ha : 0 ≤ a) (ha2 : a < 2) (hb : 0 ≤ b)
    (hb2 : b < 2) (d : List Int) (hd : d.length = 4) :
    InBounds { demoMap with data := d } (demoLocal a b v) a b :=
  { nonempty := by simp [demoLocal]
    local_size := by simp [demoLocal]
    map_size := by simp [demoMap, hd]
    xoff_eq := pixelOffset_unit a
    yoff_eq := pixelOffset_unit b
    in_grid := by
      intro i hi
      simp only [demoLocal, List.length_singleton, Nat.lt_one_iff] at hi
      subst hi
      simp [CellInGrid, demoMap, demoLocal, ha, ha2, hb, hb2] }

/-! ## Claims on map fusion -/

/-- C1 (fusion reversibility): starting from an empty overlay patch, fusing an in-bounds
non-empty local map `A` and then an in-bounds non-empty local map `B` succeeds, and every
global cell that is not the target of a cell of `B` at or above the occupancy threshold
holds the value it had before `A` was fused, while the targets of `B` hold the value of
`B`; so no cell keeps the value of `A` unless `B` marks it occupied. -/
theorem localCostmapCB_reversible {E : Type} (eng : GraphEngine E) (cfg : Params)
    (s : Planner E) (A B : OccupancyGrid) (xa ya xb yb : Int)
    (hA : InBounds s.map A xa ya) (hB : InBounds s.map B xb yb)
    (hpatch : s.map_pixels_backup = []) :
    ∃ s1 s2, localCostmapCB eng cfg s A = some s1 ∧ localCostmapCB eng cfg s1 B = some s2 ∧
      s2.map.data.length = s.map.data.length ∧
      (∀ p ∈ occupiedCells cfg.occupancy_threshold B.data,
        s2.map.data[(cellIndex s.map.width B.width xb yb p.1).toNat]? = some p.2) ∧
      ∀ k : Nat, (∀ p ∈ occupiedCells cfg.occupancy_threshold B.data,
          cellIndex s.map.width B.width xb yb p.1 ≠ (k : Int)) →
        s2.map.data[k]? = s.map.data[k]? := by
  have hr : restorePixels s.map_pixels_backup s.map.data = some s.map.data := by
    rw [hpatch]; rfl
  obtain ⟨s1, e1, hm1, hl1, _, _, _, _, hr1⟩ :=
    localCostmapCB_cycle eng cfg s A xa ya hA s.map.data hr rfl
  have hB1 : InBounds s1.map B xb yb := hB.transfer hm1 hl1
  have hw : s1.map.width = s.map.width := by rw [hm1]
  obtain ⟨s2, e2, _, hl2, _, _, hv2, hf2, _⟩ :=
    localCostmapCB_cycle eng cfg s1 B xb yb hB1 s.map.data hr1 hl1.symm
  rw [hw] at hv2 hf2
  exact ⟨s1, s2, e1, e2, hl2.trans hl1, hv2, hf2⟩

/-- C1, worked example: on the `2 x 2` map `[1, 2, 3, 4]`, fusing a cell of value `100` at
pixel `(0, 0)` and then a cell of value `90` at pixel `(1, 1)`. -/
theorem localCostmapCB_reversible_witness :
    ∃ s1 s2, localCostmapCB (toyEngine [] [] 0) demoParams
        (demoPlanner demoMap [] false [] [] 0 ⟨0, 0⟩) (demoLocal 0 0 100) = some s1 ∧
      localCostmapCB (toyEngine [] [] 0) demoParams s1 (demoLocal 1 1 90) = some s2 ∧
      s2.map.data.length = (demoPlanner demoMap [] false [] [] 0 ⟨0, 0⟩).map.data.length ∧
      (∀ p ∈ occupiedCells demoParams.occupancy_threshold (demoLocal 1 1 90).data,
        s2.map.data[(cellIndex (demoPlanner demoMap [] false [] [] 0 ⟨0, 0⟩).map.width
          (demoLocal 1 1 90).width 1 1 p.1).toNat]? = some p.2) ∧
      ∀ k : Nat, (∀ p ∈ occupiedCells demoParams.occupancy_threshold (demoLocal 1 1 90).data,
          cellIndex (demoPlanner demoMap [] false [] [] 0 ⟨0, 0⟩).map.width
            (demoLocal 1 1 90).width 1 1 p.1 ≠ (k : Int)) →
        s2.map.data[k]? = (demoPlanner demoMap [] false [] [] 0 ⟨0, 0⟩).map.data[k]? :=
  localCostmapCB_reversible (toyEngine [] [] 0) demoParams
    (demoPlanner demoMap [] false [] [] 0 ⟨0, 0⟩) (demoLocal 0 0 100) (demoLocal 1 1 90)
    0 0 1 1
    (demoLocal_inBounds 0 0 100 (by decide) (by decide) (by decide) (by decide) demoMap.data rfl)
    (demoLocal_inBounds 1 1 90 (by decide) (by decide) (by decide) (by decide) demoMap.data rfl)
    rfl

/-- C2 (fusion idempotence): from any planner state whose overlay patch points inside the
map, fusing the same in-bounds non-empty local map twice in a row succeeds both times, and
the second call leaves the global map data and the overlay patch exactly as the first call
left them. -/
theorem localCostmapCB_idempotent {E : Type} (eng : GraphEngine E) (cfg : Params)
    (s : Planner E) (L : OccupancyGrid) (xoff yoff : Int)
    (hL : InBounds s.map L xoff yoff)
    (hpatch : PatchValid s.map_pixels_backup s.map.data) :
    ∃ s1 s2, localCostmapCB eng cfg s L = some s1 ∧ localCostmapCB eng cfg s1 L = some s2 ∧
      s2.map.data = s1.map.data ∧ s2.map_pixels_backup = s1.map_pixels_backup ∧
      s2.map_pixels_backup.length = s1.map_pixels_backup.length := by
  obtain ⟨d0, hr, hlen⟩ := restorePixels_isSome _ _ hpatch
  obtain ⟨s1, e1, hm1, hl1, ho1, _, _, _, hr1⟩ :=
    localCostmapCB_cycle eng cfg s L xoff yoff hL d0 hr hlen
  have hL1 : InBounds s1.map L xoff yoff := hL.transfer hm1 hl1
  have hw : s1.map.width = s.map.width := by rw [hm1]
  obtain ⟨s2, e2, _, _, ho2, _, _, _, _⟩ :=
    localCostmapCB_cycle eng cfg s1 L xoff yoff hL1 d0 hr1 (hlen.trans hl1.symm)
  rw [hw, ho1] at ho2
  have heq := Option.some.inj ho2
  have hd : s2.map.data = s1.map.data := (congrArg Prod.fst heq).symm
  have hb : s2.map_pixels_backup = s1.map_pixels_backup := (congrArg Prod.snd heq).symm
  exact ⟨s1, s2, e1, e2, hd, hb, by rw [hb]⟩

/-- C2, worked example: on the `2 x 2` map `[1, 100, 3, 4]` carrying the patch `[(1, 2)]`
of an earlier cycle, fusing twice a cell of value `90` at pixel `(1, 1)`. -/
theorem localCostmapCB_idempotent_witness :
    ∃ s1 s2, localCostmapCB (toyEngine [] [] 0) demoParams
        (demoPlanner { demoMap with data := [1, 100, 3, 4] } [(1, 2)] false [] [] 0 ⟨0, 0⟩)
        (demoLocal 1 1 90) = some s1 ∧
      localCostmapCB (toyEngine [] [] 0) demoParams s1 (demoLocal 1 1 90) = some s2 ∧
      s2.map.data = s1.map.data ∧ s2.map_pixels_backup = s1.map_pixels_backup ∧
      s2.map_pixels_backup.length = s1.map_pixels_backup.length :=
  localCostmapCB_idempotent (toyEngine [] [] 0) demoParams
    (demoPlanner { demoMap with data := [1, 100, 3, 4] } [(1, 2)] false [] [] 0 ⟨0, 0⟩)
    (demoLocal 1 1 90) 1 1
    (demoLocal_inBounds 1 1 90 (by decide) (by decide) (by decide) (by decide) [1, 100, 3, 4] rfl)
    (by
      intro p hp
      simp only [demoPlanner, List.mem_singleton] at hp
      subst hp
      decide)

/-- C3 (overlay write and patch record): for a non-empty in-bounds local map and a planner
whose overlay patch points inside the map, `localCostmapCB` succeeds; with `d0` the map data
after the replay of the old patch, the new patch holds exactly one pair per local cell `i`
at or above the occupancy threshold, in ascending `i`, namely the global index
`(i / w + yoff) * W + (i mod w + xoff)` with the value `d0` holds there (the value just
before the write); each such global cell then holds the local value, and every other
global cell holds its value in `d0`. -/
theorem localCostmapCB_overlay_patch {E : Type} (eng : GraphEngine E) (cfg : Params)
    (s : Planner E) (msg : OccupancyGrid) (xoff yoff : Int)
    (h : InBounds s.map msg xoff yoff)
    (hpatch : PatchValid s.map_pixels_backup s.map.data) :
    ∃ d0 s1, restorePixels s.map_pixels_backup s.map.data = some d0 ∧
      localCostmapCB eng cfg s msg = some s1 ∧
      s1.map_pixels_backup =
        ((msg.data.enum.filter (fun p => decide (cfg.occupancy_threshold ≤ p.2))).map
          (fun p =>
            ((((p.1 / msg.width : Nat) : Int) + yoff) * s.map.width +
                (((p.1 % msg.width : Nat) : Int) + xoff),
              d0.getD ((((p.1 / msg.width : Nat) : Int) + yoff) * s.map.width +
                (((p.1 % msg.width : Nat) : Int) + xoff)).toNat 0))) ∧
      (∀ p ∈ occupiedCells cfg.occupancy_threshold msg.data,
        s1.map.data[(cellIndex s.map.width msg.width xoff yoff p.1).toNat]? = some p.2) ∧
      (∀ k : Nat, (∀ p ∈ occupiedCells cfg.occupancy_threshold msg.data,
          cellIndex s.map.width msg.width xoff yoff p.1 ≠ (k : Int)) →
        s1.map.data[k]? = d0[k]?) := by
  obtain ⟨d0, hr, hlen⟩ := restorePixels_isSome _ _ hpatch
  obtain ⟨s1, e1, _, _, _, hb, hv, hf, _⟩ :=
    localCostmapCB_cycle eng cfg s msg xoff yoff h d0 hr hlen
  exact ⟨d0, s1, hr, e1, hb, hv, hf⟩

/-- C3, worked example: on the `2 x 2` map `[1, 100, 3, 4]` carrying the patch `[(1, 2)]`,
fusing a cell of value `90` at pixel `(1, 1)`. -/
theorem localCostmapCB_overlay_patch_witness :
    ∃ d0 s1, restorePixels [(1, 2)] [1, 100, 3, 4] = some d0 ∧
      localCostmapCB (toyEngine [] [] 0) demoParams
        (demoPlanner { demoMap with data := [1, 100, 3, 4] } [(1, 2)] false [] [] 0 ⟨0, 0⟩)
        (demoLocal 1 1 90) = some s1 ∧
      s1.map_pixels_backup =
        (([(90 : Int)].enum.filter (fun p => decide ((50 : Int) ≤ p.2))).map
          (fun p =>
            ((((p.1 / 1 : Nat) : Int) + 1) * 2 + (((p.1 % 1 : Nat) : Int) + 1),
              d0.getD ((((p.1 / 1 : Nat) : Int) + 1) * 2 +
                (((p.1 % 1 : Nat) : Int) + 1)).toNat 0))) ∧
      (∀ p ∈ occupiedCells 50 [90],
        s1.map.data[(cellIndex 2 1 1 1 p.1).toNat]? = some p.2) ∧
      (∀ k : Nat, (∀ p ∈ occupiedCells 50 [90], cellIndex 2 1 1 1 p.1 ≠ (k : Int)) →
        s1.map.data[k]? = d0[k]?) :=
  localCostmapCB_overlay_patch (toyEngine [] [] 0) demoParams
    (demoPlanner { demoMap with data := [1, 100, 3, 4] } [(1, 2)] false [] [] 0 ⟨0, 0⟩)
    (demoLocal 1 1 90) 1 1
    (demoLocal_inBounds 1 1 90 (by decide) (by decide) (by decide) (by decide) [1, 100, 3, 4] rfl)
    (by
      intro p hp
      simp only [demoPlanner, List.mem_singleton] at hp
      subst hp
      decide)

/-- C4, counterexample: on the `2 x 2` map `[1, 2, 3, 4]` a local cell of value `100` whose
global column is `2` (outside `[0, 2)`) and whose global row is `0` is not discarded:
`localCostmapCB` writes it at linear index `2`, the cell of column `0` in row `1`, and
records the patch entry `(2, 3)`. -/
theorem localCostmapCB_out_of_grid_written :
    pixelOffset demoMap.origin_x (demoLocal 2 0 100).origin_x demoMap.resolution = some 2 ∧
    pixelOffset demoMap.origin_y (demoLocal 2 0 100).origin_y demoMap.resolution = some 0 ∧
    demoParams.occupancy_threshold ≤ 100 ∧
    ¬ CellInGrid demoMap (demoLocal 2 0 100).width 2 0 0 ∧
    (localCostmapCB (toyEngine [] [] 0) demoParams
        (demoPlanner demoMap [] false [] [] 0 ⟨0, 0⟩) (demoLocal 2 0 100)).map
      (fun s1 => (s1.map.data, s1.map_pixels_backup)) = some ([1, 2, 100, 4], [(2, 3)]) := by
  have hx : pixelOffset demoMap.origin_x (demoLocal 2 0 100).origin_x demoMap.resolution
      = some 2 := pixelOffset_unit 2
  have hy : pixelOffset demoMap.origin_y (demoLocal 2 0 100).origin_y demoMap.resolution
      = some 0 := pixelOffset_unit 0
  refine ⟨hx, hy, by decide, by simp [CellInGrid, demoMap, demoLocal], ?_⟩
  rw [localCostmapCB_eq (toyEngine [] [] 0) demoParams
    (demoPlanner demoMap [] false [] [] 0 ⟨0, 0⟩) (demoLocal 2 0 100) 2 0 [1, 2, 3, 4]
    [1, 2, 100, 4] [(2, 3)] (by simp [demoLocal]) hx hy rfl (by decide)]
  rfl

/-- C4, as the code has it: `localCostmapCB` checks neither column nor row.  Whenever the
linear index `(i / w + yoff) * W + (i mod w + xoff)` of every local cell at or above the
occupancy threshold lies inside the data array, whether or not its column and row lie
inside the grid, the call succeeds, records one patch entry per such cell at that index,
in ascending `i`, and leaves every global cell that is the linear index of no such cell at
its restored value. -/
theorem localCostmapCB_unchecked {E : Type} (eng : GraphEngine E) (cfg : Params)
    (s : Planner E) (msg : OccupancyGrid) (xoff yoff : Int)
    (hne : msg.data ≠ []) (hw : 0 < msg.width)
    (hx : pixelOffset s.map.origin_x msg.origin_x s.map.resolution = some xoff)
    (hy : pixelOffset s.map.origin_y msg.origin_y s.map.resolution = some yoff)
    (hpatch : PatchValid s.map_pixels_backup s.map.data)
    (hidx : ∀ p ∈ occupiedCells cfg.occupancy_threshold msg.data,
      0 ≤ cellIndex s.map.width msg.width xoff yoff p.1 ∧
      (cellIndex s.map.width msg.width xoff yoff p.1).toNat < s.map.data.length) :
    ∃ d0 s1, restorePixels s.map_pixels_backup s.map.data = some d0 ∧
      localCostmapCB eng cfg s msg = some s1 ∧
      s1.map.data.length = s.map.data.length ∧
      s1.map_pixels_backup.map Prod.fst =
        (occupiedCells cfg.occupancy_threshold msg.data).map
          (fun p => cellIndex s.map.width msg.width xoff yoff p.1) ∧
      ∀ k : Nat, (∀ p ∈ occupiedCells cfg.occupancy_threshold msg.data,
          cellIndex s.map.width msg.width xoff yoff p.1 ≠ (k : Int)) →
        s1.map.data[k]? = d0[k]? := by
  obtain ⟨d0, hr, hlen⟩ := restorePixels_isSome _ _ hpatch
  obtain ⟨d1, e, ho, hl, hk, hf⟩ :=
    overlayPixels_frame cfg.occupancy_threshold s.map.width msg.width xoff yoff hw msg.data 0
      d0 [] (by rw [hlen]; exact hidx)
  have e1 := localCostmapCB_eq eng cfg s msg xoff yoff d0 d1 _ hne hx hy hr ho
  exact ⟨d0, _, hr, e1, hl.trans hlen, by simpa using hk, hf⟩

/-- C4 as the code has it, worked example: the out-of-grid cell of the counterexample. -/
theorem localCostmapCB_unchecked_witness :
    ∃ d0 s1, restorePixels [] [1, 2, 3, 4] = some d0 ∧
      localCostmapCB (toyEngine [] [] 0) demoParams
        (demoPlanner demoMap [] false [] [] 0 ⟨0, 0⟩) (demoLocal 2 0 100) = some s1 ∧
      s1.map.data.length = 4 ∧
      s1.map_pixels_backup.map Prod.fst =
        (occupiedCells 50 [100]).map (fun p => cellIndex 2 1 2 0 p.1) ∧
      ∀ k : Nat, (∀ p ∈ occupiedCells 50 [100], cellIndex 2 1 2 0 p.1 ≠ (k : Int)) →
        s1.map.data[k]? = d0[k]? :=
  localCostmapCB_unchecked (toyEngine [] [] 0) demoParams
    (demoPlanner demoMap [] false [] [] 0 ⟨0, 0⟩) (demoLocal 2 0 100) 2 0
    (by simp [demoLocal]) (by decide) (pixelOffset_unit 2) (pixelOffset_unit 0)
    (by intro p hp; simp [demoPlanner] at hp)
    (by
      intro p hp
      have hp1 : p = (0, 100) := by
        simpa [occupiedCells, occupiedFrom, demoParams, demoLocal] using hp
      subst hp1
      decide)

/-! ## Binary64 rounding -/

theorem roundHalfEven_nonneg (m : ℚ) (hm : 0 ≤ m) : 0 ≤ roundHalfEven m := by
  have hf : (0 : Int) ≤ m.floor := Rat.le_floor.mpr (by simpa using hm)
  unfold roundHalfEven
  split
  · exact hf
  · split
    · omega
    · split
      · exact hf
      · omega

theorem roundedMagnitude_nonneg (q : ℚ) : 0 ≤ roundedMagnitude q := by
  unfold roundedMagnitude
  have h2 : (0 : ℚ) < (2 : ℚ) ^ (max (binaryExponent q - 52) (-1074)) :=
    zpow_pos (by norm_num) _
  have hm : 0 ≤ |q| / (2 : ℚ) ^ (max (binaryExponent q - 52) (-1074)) :=
    div_nonneg (abs_nonneg q) h2.le
  have hr := roundHalfEven_nonneg _ hm
  exact mul_nonneg (by exact_mod_cast hr) h2.le

theorem Dbl.round_of_nonneg (q : ℚ) (hq : 0 ≤ q) :
    Dbl.round q = .pinf ∨ ∃ r, 0 ≤ r ∧ Dbl.round q = .fin r := by
  unfold Dbl.round
  by_cases h0 : q = 0
  · exact Or.inr ⟨0, le_refl _, by simp [h0]⟩
  · have hneg : ¬ q < 0 := not_lt.mpr hq
    by_cases hov : (2 : ℚ) ^ (1024 : Int) ≤ roundedMagnitude q
    · left
      simp [h0, hov, hneg]
    · right
      exact ⟨roundedMagnitude q, roundedMagnitude_nonneg q, by simp [h0, hov, hneg]⟩

theorem Dbl.round_zero : Dbl.round 0 = .fin 0 := by
  simp [Dbl.round]

theorem joystickExceedsThreshold_zero (max_lin max_ang t : ℚ) :
    joystickExceedsThreshold ⟨0, 0⟩ max_lin max_ang t = false := by
  have hdiv : ∀ m : ℚ, Dbl.sq (Dbl.div (.fin 0) (.fin m)) = .nan ∨
      Dbl.sq (Dbl.div (.fin 0) (.fin m)) = .fin 0 := by
    intro m
    by_cases hm : m = 0
    · left
      simp [Dbl.div, Dbl.sq, Dbl.mul, hm]
    · right
      simp [Dbl.div, Dbl.sq, Dbl.mul, hm, Dbl.round_zero]
  have hsum : Dbl.add (Dbl.sq (Dbl.div (.fin 0) (.fin max_lin)))
      (Dbl.sq (Dbl.div (.fin 0) (.fin max_ang))) = .nan ∨
      Dbl.add (Dbl.sq (Dbl.div (.fin 0) (.fin max_lin)))
        (Dbl.sq (Dbl.div (.fin 0) (.fin max_ang))) = .fin 0 := by
    rcases hdiv max_lin with h1 | h1 <;> rcases hdiv max_ang with h2 | h2 <;>
      simp [h1, h2, Dbl.add, Dbl.round_zero]
  have hsq : Dbl.sq (.fin t) = .pinf ∨ ∃ r, 0 ≤ r ∧ Dbl.sq (.fin t) = .fin r := by
    simpa [Dbl.sq, Dbl.mul] using Dbl.round_of_nonneg (t * t) (mul_self_nonneg t)
  simp only [joystickExceedsThreshold]
  rcases hsum with hs | hs
  · rw [hs]
    rcases hsq with h | ⟨r, _, h⟩ <;> rw [h] <;> rfl
  · rw [hs]
    rcases hsq with h | ⟨r, hr, h⟩
    · rw [h]
      rfl
    · rw [h]
      simp [Dbl.lt, hr]

/-! ## The planning cycle -/

theorem sqrtLt_iff_sqrt_lt (a t : ℚ) :
    sqrtLt a t = true ↔ Real.sqrt (a : ℝ) < (t : ℝ) := by
  simp only [sqrtLt, decide_eq_true_eq]
  constructor
  · rintro ⟨ht, hlt⟩
    have ht' : (0 : ℝ) < (t : ℝ) := by exact_mod_cast ht
    rw [Real.sqrt_lt' ht', pow_two]
    exact_mod_cast hlt
  · intro h
    have ht' : (0 : ℝ) < (t : ℝ) := lt_of_le_of_lt (Real.sqrt_nonneg _) h
    refine ⟨by exact_mod_cast ht', ?_⟩
    rw [Real.sqrt_lt' ht', pow_two] at h
    exact_mod_cast h

theorem makePlan_of_skip {E : Type} (eng : GraphEngine E) (cfg : Params) (s : Planner E)
    (start goal : PoseStamped) (plan : List PoseStamped)
    (h : (!(selectStrategy eng cfg s start (goalInMap eng s goal) plan).state.all_paths.isEmpty
      && (selectStrategy eng cfg s start (goalInMap eng s goal) plan).plan.isEmpty) = false) :
    makePlan eng cfg s start goal plan =
      some { state := (selectStrategy eng cfg s start (goalInMap eng s goal) plan).state
             plan := (selectStrategy eng cfg s start (goalInMap eng s goal) plan).plan
             ok := !(selectStrategy eng cfg s start (goalInMap eng s goal) plan).plan.isEmpty
             calls := (selectStrategy eng cfg s start (goalInMap eng s goal) plan).calls } := by
  simp only [makePlan, h]
  rfl

theorem makePlan_of_convert {E : Type} (eng : GraphEngine E) (cfg : Params) (s : Planner E)
    (start goal : PoseStamped) (plan : List PoseStamped) (p : Nat)
    (h : (!(selectStrategy eng cfg s start (goalInMap eng s goal) plan).state.all_paths.isEmpty
      && (selectStrategy eng cfg s start (goalInMap eng s goal) plan).plan.isEmpty) = true)
    (harb : arbitrate eng cfg
      (convertPaths eng cfg (selectStrategy eng cfg s start (goalInMap eng s goal) plan).state
        start (goalInMap eng s goal)) start (goalInMap eng s goal) = some p) :
    makePlan eng cfg s start goal plan =
      some
        { state :=
            { convertPaths eng cfg
                (selectStrategy eng cfg s start (goalInMap eng s goal) plan).state start
                (goalInMap eng s goal) with preferred_path := p }
          plan :=
            if p < (convertPaths eng cfg
                (selectStrategy eng cfg s start (goalInMap eng s goal) plan).state start
                (goalInMap eng s goal)).all_paths_meters.length then
              (convertPaths eng cfg
                (selectStrategy eng cfg s start (goalInMap eng s goal) plan).state start
                (goalInMap eng s goal)).all_paths_meters.getD p []
            else (selectStrategy eng cfg s start (goalInMap eng s goal) plan).plan
          ok := !(if p < (convertPaths eng cfg
                (selectStrategy eng cfg s start (goalInMap eng s goal) plan).state start
                (goalInMap eng s goal)).all_paths_meters.length then
              (convertPaths eng cfg
                (selectStrategy eng cfg s start (goalInMap eng s goal) plan).state start
                (goalInMap eng s goal)).all_paths_meters.getD p []
            else (selectStrategy eng cfg s start (goalInMap eng s goal) plan).plan).isEmpty
          calls :=
            if intentActive cfg (convertPaths eng cfg
                (selectStrategy eng cfg s start (goalInMap eng s goal) plan).state start
                (goalInMap eng s goal)) start (goalInMap eng s goal) then
              ((selectStrategy eng cfg s start (goalInMap eng s goal) plan).calls ++
                [.interpolatePaths
                  (selectStrategy eng cfg s start (goalInMap eng s goal) plan).state.all_paths
                  cfg.path_waypoint_sep]) ++ [.getAllPathCosts]
            else
              (selectStrategy eng cfg s start (goalInMap eng s goal) plan).calls ++
                [.interpolatePaths
                  (selectStrategy eng cfg s start (goalInMap eng s goal) plan).state.all_paths
                  cfg.path_waypoint_sep] } := by
  simp only [makePlan, h, harb]
  rfl

theorem convertPaths_prev_goal {E : Type} (eng : GraphEngine E) (cfg : Params) (st : Planner E)
    (start_ goal_ : PoseStamped) :
    (convertPaths eng cfg st start_ goal_).prev_goal = st.prev_goal := rfl

theorem makePlan_extends {E : Type} (eng : GraphEngine E) (cfg : Params) (s : Planner E)
    (start goal : PoseStamped) (plan : List PoseStamped) (out : MakePlanOut E)
    (h : makePlan eng cfg s start goal plan = some out) :
    out.state.prev_goal =
        (selectStrategy eng cfg s start (goalInMap eng s goal) plan).state.prev_goal ∧
      ∃ rest, out.calls =
          (selectStrategy eng cfg s start (goalInMap eng s goal) plan).calls ++ rest ∧
        ∀ c ∈ rest, c = .getAllPathCosts ∨ ∃ ps sep, c = .interpolatePaths ps sep := by
  cases hc : (!(selectStrategy eng cfg s start (goalInMap eng s goal) plan).state.all_paths.isEmpty
      && (selectStrategy eng cfg s start (goalInMap eng s goal) plan).plan.isEmpty) with
  | false =>
    rw [makePlan_of_skip eng cfg s start goal plan hc] at h
    have := Option.some.inj h
    subst this
    exact ⟨rfl, [], by simp, by simp⟩
  | true =>
    cases ha : arbitrate eng cfg
      (convertPaths eng cfg (selectStrategy eng cfg s start (goalInMap eng s goal) plan).state
        start (goalInMap eng s goal)) start (goalInMap eng s goal) with
    | none =>
      simp only [makePlan, hc, ha] at h
      simp at h
    | some p =>
      rw [makePlan_of_convert eng cfg s start goal plan p hc ha] at h
      have := Option.some.inj h
      subst this
      refine ⟨rfl, ?_⟩
      by_cases hi : intentActive cfg (convertPaths eng cfg
          (selectStrategy eng cfg s start (goalInMap eng s goal) plan).state start
          (goalInMap eng s goal)) start (goalInMap eng s goal) = true
      · refine ⟨[.interpolatePaths
            (selectStrategy eng cfg s start (goalInMap eng s goal) plan).state.all_paths
            cfg.path_waypoint_sep, .getAllPathCosts], by simp [hi], ?_⟩
        intro c hcm
        simp only [List.mem_cons, List.mem_singleton, List.not_mem_nil, or_false] at hcm
        rcases hcm with rfl | rfl
        · exact Or.inr ⟨_, _, rfl⟩
        · exact Or.inl rfl
      · refine ⟨[.interpolatePaths
            (selectStrategy eng cfg s start (goalInMap eng s goal) plan).state.all_paths
            cfg.path_waypoint_sep], by simp [hi], ?_⟩
        intro c hcm
        simp only [List.mem_singleton] at hcm
        subst hcm
        exact Or.inr ⟨_, _, rfl⟩

theorem selectStrategy_reuse {E : Type} (eng : GraphEngine E) (cfg : Params) (s : Planner E)
    (start_ goal_ : PoseStamped) (plan : List PoseStamped)
    (h : nearGoalReuse cfg s start_ goal_ = true) :
    selectStrategy eng cfg s start_ goal_ plan =
      { state := s, plan := s.all_paths_meters.getD s.preferred_path [], calls := [] } := by
  simp only [selectStrategy, h]
  rfl

theorem selectStrategy_trim {E : Type} (eng : GraphEngine E) (cfg : Params) (s : Planner E)
    (start_ goal_ : PoseStamped) (plan : List PoseStamped)
    (h : nearGoalReuse cfg s start_ goal_ = false)
    (hprev : eng.hasPreviousPaths s.voronoi_path = true)
    (hgoal : s.prev_goal = toGrid s.map goal_.pose.px goal_.pose.py) :
    selectStrategy eng cfg s start_ goal_ plan =
      { state :=
          { s with
            all_paths := (eng.replan s.voronoi_path (toGrid s.map start_.pose.px start_.pose.py)
              (toGrid s.map goal_.pose.px goal_.pose.py) cfg.num_paths s.preferred_path).1
            voronoi_path := (eng.replan s.voronoi_path
              (toGrid s.map start_.pose.px start_.pose.py)
              (toGrid s.map goal_.pose.px goal_.pose.py) cfg.num_paths s.preferred_path).2 }
        plan := plan
        calls := [.hasPreviousPaths,
                  .replan (toGrid s.map start_.pose.px start_.pose.py)
                    (toGrid s.map goal_.pose.px goal_.pose.py) cfg.num_paths s.preferred_path] } := by
  simp only [selectStrategy, h, hprev, ← hgoal]
  simp

theorem selectStrategy_fresh {E : Type} (eng : GraphEngine E) (cfg : Params) (s : Planner E)
    (start_ goal_ : PoseStamped) (plan : List PoseStamped)
    (h : nearGoalReuse cfg s start_ goal_ = false)
    (hfresh : eng.hasPreviousPaths s.voronoi_path = false ∨
      s.prev_goal ≠ toGrid s.map goal_.pose.px goal_.pose.py) :
    selectStrategy eng cfg s start_ goal_ plan =
      { state :=
          { s with
            voronoi_path := (eng.getPath (eng.clearPreviousPaths s.voronoi_path)
              (toGrid s.map start_.pose.px start_.pose.py)
              (toGrid s.map goal_.pose.px goal_.pose.py) cfg.num_paths).2
            preferred_path := 0
            all_paths := (eng.getPath (eng.clearPreviousPaths s.voronoi_path)
              (toGrid s.map start_.pose.px start_.pose.py)
              (toGrid s.map goal_.pose.px goal_.pose.py) cfg.num_paths).1
            prev_goal := toGrid s.map goal_.pose.px goal_.pose.py }
        plan := plan
        calls := [.hasPreviousPaths, .clearPreviousPaths,
                  .getPath (toGrid s.map start_.pose.px start_.pose.py)
                    (toGrid s.map goal_.pose.px goal_.pose.py) cfg.num_paths] } := by
  have hc : (eng.hasPreviousPaths s.voronoi_path &&
      decide (s.prev_goal = toGrid s.map goal_.pose.px goal_.pose.py)) = false := by
    rcases hfresh with h1 | h2
    · simp [h1]
    · simp [h2]
  simp only [selectStrategy, h, hc]
  simp

theorem makePlan_of_reuse {E : Type} (eng : GraphEngine E) (cfg : Params)
    (s : Planner E) (start goal : PoseStamped) (plan : List PoseStamped)
    (hnear : sqrtLt (distSq start (goalInMap eng s goal)) cfg.xy_goal_tolerance = true)
    (hidx : s.preferred_path < s.all_paths_meters.length)
    (hne : s.all_paths_meters.getD s.preferred_path [] ≠ []) :
    makePlan eng cfg s start goal plan =
      some { state := s, plan := s.all_paths_meters.getD s.preferred_path [], ok := true,
             calls := [] } := by
  have hreuse : nearGoalReuse cfg s start (goalInMap eng s goal) = true := by
    simp [nearGoalReuse, hnear, hidx]
  have hsel := selectStrategy_reuse eng cfg s start (goalInMap eng s goal) plan hreuse
  have hemp : (s.all_paths_meters.getD s.preferred_path []).isEmpty = false := by
    cases hl : s.all_paths_meters.getD s.preferred_path [] with
    | nil => exact absurd hl hne
    | cons a t => rfl
  rw [makePlan_of_skip eng cfg s start goal plan (by rw [hsel]; simp only [hemp, Bool.and_false])]
  rw [hsel]
  simp only [hemp, Bool.not_false]

theorem intentActive_convertPaths {E : Type} (eng : GraphEngine E) (cfg : Params)
    (s : Planner E) (start goal : PoseStamped) (plan : List PoseStamped) :
    intentActive cfg
        (convertPaths eng cfg (selectStrategy eng cfg s start (goalInMap eng s goal) plan).state
          start (goalInMap eng s goal)) start (goalInMap eng s goal) =
      intentActive cfg s start (goalInMap eng s goal) := by
  have hcmd : (convertPaths eng cfg
      (selectStrategy eng cfg s start (goalInMap eng s goal) plan).state
      start (goalInMap eng s goal)).cmd_vel = s.cmd_vel := by
    simp only [convertPaths, selectStrategy]
    split
    · rfl
    · split <;> rfl
  simp only [intentActive, hcmd]

theorem makePlan_idle {E : Type} (eng : GraphEngine E) (cfg : Params) (s : Planner E)
    (start goal : PoseStamped) (plan : List PoseStamped)
    (hidle : intentActive cfg s start (goalInMap eng s goal) = false) :
    ∃ out, makePlan eng cfg s start goal plan = some out ∧
      out.state.preferred_path =
        (selectStrategy eng cfg s start (goalInMap eng s goal) plan).state.preferred_path := by
  cases hc : (!(selectStrategy eng cfg s start (goalInMap eng s goal) plan).state.all_paths.isEmpty
      && (selectStrategy eng cfg s start (goalInMap eng s goal) plan).plan.isEmpty) with
  | false => exact ⟨_, makePlan_of_skip eng cfg s start goal plan hc, rfl⟩
  | true =>
    have ha : arbitrate eng cfg
        (convertPaths eng cfg (selectStrategy eng cfg s start (goalInMap eng s goal) plan).state
          start (goalInMap eng s goal)) start (goalInMap eng s goal) =
        some (selectStrategy eng cfg s start (goalInMap eng s goal) plan).state.preferred_path := by
      simp only [arbitrate, intentActive_convertPaths, hidle]
      rfl
    exact ⟨_, makePlan_of_convert eng cfg s start goal plan _ hc ha, rfl⟩

theorem makePlan_plan_source {E : Type} (eng : GraphEngine E) (cfg : Params) (s : Planner E)
    (start goal : PoseStamped) (plan : List PoseStamped) (out : MakePlanOut E)
    (h : makePlan eng cfg s start goal plan = some out) :
    out.plan = (selectStrategy eng cfg s start (goalInMap eng s goal) plan).plan ∨
      out.plan ∈ (convertPaths eng cfg
        (selectStrategy eng cfg s start (goalInMap eng s goal) plan).state start
        (goalInMap eng s goal)).all_paths_meters := by
  cases hc : (!(selectStrategy eng cfg s start (goalInMap eng s goal) plan).state.all_paths.isEmpty
      && (selectStrategy eng cfg s start (goalInMap eng s goal) plan).plan.isEmpty) with
  | false =>
    rw [makePlan_of_skip eng cfg s start goal plan hc] at h
    have := Option.some.inj h
    subst this
    exact Or.inl rfl
  | true =>
    cases ha : arbitrate eng cfg
      (convertPaths eng cfg (selectStrategy eng cfg s start (goalInMap eng s goal) plan).state
        start (goalInMap eng s goal)) start (goalInMap eng s goal) with
    | none =>
      simp only [makePlan, hc, ha] at h
      simp at h
    | some p =>
      rw [makePlan_of_convert eng cfg s start goal plan p hc ha] at h
      have := Option.some.inj h
      subst this
      by_cases hp : p < (convertPaths eng cfg
          (selectStrategy eng cfg s start (goalInMap eng s goal) plan).state start
          (goalInMap eng s goal)).all_paths_meters.length
      · right
        simp only [hp, if_true]
        rw [List.getD_eq_getElem _ _ hp]
        exact List.getElem_mem _
      · left
        simp only [hp, if_false]

theorem setFirstOrientation_ne_nil (q : Quaternion) (l : List PoseStamped) (h : l ≠ []) :
    setFirstOrientation q l ≠ [] := by
  cases l with
  | nil => exact absurd rfl h
  | cons a t => simp [setFirstOrientation]

theorem setLastOrientation_ne_nil (q : Quaternion) (l : List PoseStamped) (h : l ≠ []) :
    setLastOrientation q l ≠ [] := by
  cases l with
  | nil => exact absurd rfl h
  | cons a t =>
    cases t with
    | nil => simp [setLastOrientation]
    | cons b u => simp [setLastOrientation]

theorem toWorldPath_ne_nil (m : Map) (start_ goal_ : PoseStamped) (q : Path)
    (h : q.path ≠ []) : toWorldPath m start_ goal_ q ≠ [] := by
  apply setLastOrientation_ne_nil
  apply setFirstOrientation_ne_nil
  simpa using h

/-! ## Claims on the replanning decision -/

/-- C5, counterexample.  First case: the start is at the stored goal `(1, 1)`, a path is
cached at the preferred index, and the requested goal is `(0, 0)`; `makePlan` measures the
distance to the requested goal, plans afresh and commits the new path after four engine
calls.  Second case: the start is at the stored and requested goal, but the cached path at
the preferred index has no pose; `makePlan` goes on to the engine's `interpolatePaths` and
reports failure. -/
theorem makePlan_reuse_not_by_stored_goal :
    (sqrtLt (distSq (demoPose 1 1) (toWorldPose demoMap ⟨1, 1⟩)) demoParams.xy_goal_tolerance
        = true ∧
      (makePlan (toyEngine [⟨7, [⟨0, 0⟩]⟩] [] 0) demoParams
          (demoPlanner demoMap [] true [⟨0, [⟨1, 1⟩]⟩] [[demoPose 1 1]] 0 ⟨1, 1⟩)
          (demoPose 1 1) (demoPose 0 0) []).map (fun o => (o.plan, o.calls)) =
        some ([demoPose 0 0],
          [.hasPreviousPaths, .clearPreviousPaths, .getPath ⟨1, 1⟩ ⟨0, 0⟩ 3,
           .interpolatePaths [⟨7, [⟨0, 0⟩]⟩] 1])) ∧
    (sqrtLt (distSq (demoPose 1 1) (toWorldPose demoMap ⟨1, 1⟩)) demoParams.xy_goal_tolerance
        = true ∧
      (makePlan (toyEngine [] [] 0) demoParams
          (demoPlanner demoMap [] true [⟨0, []⟩] [[]] 0 ⟨1, 1⟩)
          (demoPose 1 1) (demoPose 1 1) []).map (fun o => (o.plan, o.ok, o.calls)) =
        some ([], false, [.interpolatePaths [⟨0, []⟩] 1])) := by
  have hnear : sqrtLt (distSq (demoPose 1 1) (toWorldPose demoMap ⟨1, 1⟩))
      demoParams.xy_goal_tolerance = true := by
    norm_num [sqrtLt, distSq, demoPose, toWorldPose, demoMap, demoParams]
  refine ⟨⟨hnear, ?_⟩, hnear, ?_⟩
  · norm_num [makePlan, selectStrategy, nearGoalReuse, sqrtLt, distSq, goalInMap, demoPose,
      demoPlanner, demoMap, demoParams, toyEngine, toGrid, convertPaths, arbitrate, intentActive,
      joystickExceedsThreshold_zero, toWorldPath, toWorldPose, setFirstOrientation,
      setLastOrientation]
  · norm_num [makePlan, selectStrategy, nearGoalReuse, sqrtLt, distSq, goalInMap, demoPose,
      demoPlanner, demoMap, demoParams, toyEngine, toGrid, convertPaths, arbitrate, intentActive,
      joystickExceedsThreshold_zero, toWorldPath, toWorldPose, setFirstOrientation,
      setLastOrientation]

/-- C5, as the code has it (reuse near the goal): when the start is strictly within
`xy_goal_tolerance` of the requested goal (in the map frame), the cached world-frame path
set has more entries than the preferred index and the cached path at that index has at
least one pose, `makePlan` reports success, commits exactly that cached path, leaves the
planner untouched and makes no call on the graph engine. -/
theorem makePlan_reuse_near_goal {E : Type} (eng : GraphEngine E) (cfg : Params)
    (s : Planner E) (start goal : PoseStamped) (plan : List PoseStamped)
    (hnear : sqrtLt (distSq start (goalInMap eng s goal)) cfg.xy_goal_tolerance = true)
    (hidx : s.preferred_path < s.all_paths_meters.length)
    (hne : s.all_paths_meters.getD s.preferred_path [] ≠ []) :
    makePlan eng cfg s start goal plan =
      some { state := s, plan := s.all_paths_meters.getD s.preferred_path [], ok := true,
             calls := [] } :=
  makePlan_of_reuse eng cfg s start goal plan hnear hidx hne

/-- C5 as the code has it, worked example: start and requested goal at `(1, 1)`, one cached
path of one pose. -/
theorem makePlan_reuse_near_goal_witness :
    makePlan (toyEngine [⟨7, [⟨0, 0⟩]⟩] [] 0) demoParams
        (demoPlanner demoMap [] true [⟨0, [⟨1, 1⟩]⟩] [[demoPose 1 1]] 0 ⟨1, 1⟩)
        (demoPose 1 1) (demoPose 1 1) [] =
      some { state := demoPlanner demoMap [] true [⟨0, [⟨1, 1⟩]⟩] [[demoPose 1 1]] 0 ⟨1, 1⟩
             plan := (demoPlanner demoMap [] true [⟨0, [⟨1, 1⟩]⟩] [[demoPose 1 1]] 0
               ⟨1, 1⟩).all_paths_meters.getD
                 (demoPlanner demoMap [] true [⟨0, [⟨1, 1⟩]⟩] [[demoPose 1 1]] 0
                   ⟨1, 1⟩).preferred_path []
             ok := true
             calls := [] } :=
  makePlan_reuse_near_goal (toyEngine [⟨7, [⟨0, 0⟩]⟩] [] 0) demoParams
    (demoPlanner demoMap [] true [⟨0, [⟨1, 1⟩]⟩] [[demoPose 1 1]] 0 ⟨1, 1⟩)
    (demoPose 1 1) (demoPose 1 1) []
    (by norm_num [sqrtLt, distSq, goalInMap, demoPose, demoPlanner, demoMap, demoParams])
    (by simp [demoPlanner])
    (by simp [demoPlanner])

/-- C6, counterexample: two paths are cached, the preferred index is `1`, the stored goal
is `(1, 1)` and the requested goal is `(0, 0)`, where the robot already stands.  The
near-goal reuse branch comes first: `makePlan` commits the cached path, the preferred index
stays `1`, the stored goal stays `(1, 1)`, and neither `clearPreviousPaths` nor `getPath`
is called. -/
theorem makePlan_goal_change_near_goal :
    (demoPlanner demoMap [] true [⟨0, [⟨1, 1⟩]⟩, ⟨1, [⟨1, 1⟩]⟩]
        [[demoPose 1 1], [demoPose 1 0, demoPose 1 1]] 1 ⟨1, 1⟩).prev_goal ≠
      toGrid demoMap (demoPose 0 0).pose.px (demoPose 0 0).pose.py ∧
    makePlan (toyEngine [⟨7, [⟨0, 0⟩]⟩] [] 0) demoParams
        (demoPlanner demoMap [] true [⟨0, [⟨1, 1⟩]⟩, ⟨1, [⟨1, 1⟩]⟩]
          [[demoPose 1 1], [demoPose 1 0, demoPose 1 1]] 1 ⟨1, 1⟩)
        (demoPose 0 0) (demoPose 0 0) [] =
      some { state := demoPlanner demoMap [] true [⟨0, [⟨1, 1⟩]⟩, ⟨1, [⟨1, 1⟩]⟩]
               [[demoPose 1 1], [demoPose 1 0, demoPose 1 1]] 1 ⟨1, 1⟩
             plan := [demoPose 1 0, demoPose 1 1]
             ok := true
             calls := [] } := by
  constructor
  · norm_num [demoPlanner, toGrid, demoMap, demoPose]
  · rw [makePlan_of_reuse _ _ _ _ _ _
      (by norm_num [sqrtLt, distSq, goalInMap, demoPose, demoPlanner, demoMap, demoParams])
      (by simp [demoPlanner]) (by simp [demoPlanner])]
    simp [demoPlanner]

/-- C6, as the code has it (fresh-plan reset): in every `makePlan` call in which the
near-goal reuse condition does not hold and the requested goal cell differs from the stored
goal, strategy selection sets the preferred index to `0`, calls `clearPreviousPaths` and
then `getPath(start, goal, num_paths)`, keeps the answer of `getPath` as the candidates and
stores the requested goal; whenever `makePlan` returns, these are its first engine calls
and the stored goal is the requested one, and when the operator's command does not
arbitrate `makePlan` returns with the preferred index `0`. -/
theorem makePlan_fresh_plan_reset {E : Type} (eng : GraphEngine E) (cfg : Params)
    (s : Planner E) (start goal : PoseStamped) (plan : List PoseStamped)
    (hnear : nearGoalReuse cfg s start (goalInMap eng s goal) = false)
    (hgoal : s.prev_goal ≠
      toGrid s.map (goalInMap eng s goal).pose.px (goalInMap eng s goal).pose.py) :
    (selectStrategy eng cfg s start (goalInMap eng s goal) plan).state.preferred_path = 0 ∧
    (selectStrategy eng cfg s start (goalInMap eng s goal) plan).state.prev_goal =
      toGrid s.map (goalInMap eng s goal).pose.px (goalInMap eng s goal).pose.py ∧
    (selectStrategy eng cfg s start (goalInMap eng s goal) plan).state.all_paths =
      (eng.getPath (eng.clearPreviousPaths s.voronoi_path)
        (toGrid s.map start.pose.px start.pose.py)
        (toGrid s.map (goalInMap eng s goal).pose.px (goalInMap eng s goal).pose.py)
        cfg.num_paths).1 ∧
    (selectStrategy eng cfg s start (goalInMap eng s goal) plan).calls =
      [.hasPreviousPaths, .clearPreviousPaths,
       .getPath (toGrid s.map start.pose.px start.pose.py)
        (toGrid s.map (goalInMap eng s goal).pose.px (goalInMap eng s goal).pose.py)
        cfg.num_paths] ∧
    (∀ out, makePlan eng cfg s start goal plan = some out →
      out.state.prev_goal =
        toGrid s.map (goalInMap eng s goal).pose.px (goalInMap eng s goal).pose.py ∧
      ∃ rest, out.calls =
        [.hasPreviousPaths, .clearPreviousPaths,
         .getPath (toGrid s.map start.pose.px start.pose.py)
          (toGrid s.map (goalInMap eng s goal).pose.px (goalInMap eng s goal).pose.py)
          cfg.num_paths] ++ rest) ∧
    (intentActive cfg s start (goalInMap eng s goal) = false →
      ∃ out, makePlan eng cfg s start goal plan = some out ∧ out.state.preferred_path = 0) := by
  have hsel := selectStrategy_fresh eng cfg s start (goalInMap eng s goal) plan hnear
    (Or.inr hgoal)
  refine ⟨by rw [hsel], by rw [hsel], by rw [hsel], by rw [hsel], ?_, ?_⟩
  · intro out hout
    obtain ⟨h1, rest, h2, _⟩ := makePlan_extends eng cfg s start goal plan out hout
    rw [hsel] at h1 h2
    exact ⟨h1, rest, h2⟩
  · intro hidle
    obtain ⟨out, h1, h2⟩ := makePlan_idle eng cfg s start goal plan hidle
    rw [hsel] at h2
    exact ⟨out, h1, h2⟩

/-- C6 as the code has it, worked example: cached paths towards `(1, 1)`, the robot at
`(1, 1)` and the new goal `(0, 0)`. -/
theorem makePlan_fresh_plan_reset_witness :
    (selectStrategy demoEngine demoParams demoCached (demoPose 1 1)
      (goalInMap demoEngine demoCached (demoPose 0 0)) []).state.preferred_path = 0 ∧
    ∃ out, makePlan demoEngine demoParams demoCached (demoPose 1 1) (demoPose 0 0) [] =
      some out ∧ out.state.preferred_path = 0 :=
  have h := makePlan_fresh_plan_reset demoEngine demoParams demoCached (demoPose 1 1)
    (demoPose 0 0) []
    (by norm_num [nearGoalReuse, sqrtLt, distSq, goalInMap, demoPose, demoCached, demoPlanner,
      demoMap, demoParams])
    (by norm_num [goalInMap, demoPose, demoCached, demoPlanner, demoMap, toGrid])
  ⟨h.1, h.2.2.2.2.2 (by norm_num [intentActive, joystickExceedsThreshold_zero, demoCached,
    demoPlanner, demoParams])⟩

/-- C7, counterexample: two paths are cached with preferred index `1`; after `cancelCB` the
engine has no previous paths, yet the next `makePlan`, asked for the goal `(0, 0)` where the
robot stands, takes the near-goal reuse branch: it commits the path cached before the
cancellation, keeps the preferred index `1` and never calls `getPath`. -/
theorem makePlan_after_cancel_reuses_cache :
    demoEngine.hasPreviousPaths (cancelCB demoEngine demoCached).voronoi_path = false ∧
    makePlan demoEngine demoParams (cancelCB demoEngine demoCached) (demoPose 0 0)
        (demoPose 0 0) [] =
      some { state := cancelCB demoEngine demoCached
             plan := [demoPose 1 0, demoPose 1 1]
             ok := true
             calls := [] } ∧
    (cancelCB demoEngine demoCached).preferred_path = 1 ∧
    [demoPose 1 0, demoPose 1 1] ∈ demoCached.all_paths_meters := by
  refine ⟨rfl, ?_, rfl, by simp [demoCached, demoPlanner]⟩
  rw [makePlan_of_reuse _ _ _ _ _ _
    (by norm_num [sqrtLt, distSq, goalInMap, demoPose, demoCached, cancelCB, demoPlanner,
      demoMap, demoParams])
    (by simp [demoCached, cancelCB, demoPlanner]) (by simp [demoCached, cancelCB, demoPlanner])]
  simp [demoCached, cancelCB, demoPlanner]

/-- C7, as the code has it (cancellation forces a fresh plan): with an engine whose
`hasPreviousPaths` is false after `clearPreviousPaths`, the first `makePlan` after
`cancelCB` in which the near-goal reuse condition does not hold takes the fresh-plan
branch: the preferred index is reset to `0`, the candidates are requested with `getPath`,
and whenever it returns, the plan handed back is the vector the caller passed in or one of
the world-frame paths built from the answer of that `getPath`. -/
theorem makePlan_after_cancel_fresh {E : Type} (eng : GraphEngine E) (cfg : Params)
    (s : Planner E) (start goal : PoseStamped) (plan : List PoseStamped)
    (hclear : ∀ e, eng.hasPreviousPaths (eng.clearPreviousPaths e) = false)
    (hnear : nearGoalReuse cfg (cancelCB eng s) start (goalInMap eng (cancelCB eng s) goal)
      = false) :
    (selectStrategy eng cfg (cancelCB eng s) start (goalInMap eng (cancelCB eng s) goal)
      plan).state.preferred_path = 0 ∧
    (selectStrategy eng cfg (cancelCB eng s) start (goalInMap eng (cancelCB eng s) goal)
      plan).calls =
      [.hasPreviousPaths, .clearPreviousPaths,
       .getPath (toGrid s.map start.pose.px start.pose.py)
        (toGrid s.map (goalInMap eng (cancelCB eng s) goal).pose.px
          (goalInMap eng (cancelCB eng s) goal).pose.py) cfg.num_paths] ∧
    ∀ out, makePlan eng cfg (cancelCB eng s) start goal plan = some out →
      out.plan = plan ∨
      out.plan ∈
        (eng.interpolatePaths
          (eng.getPath (eng.clearPreviousPaths (cancelCB eng s).voronoi_path)
            (toGrid s.map start.pose.px start.pose.py)
            (toGrid s.map (goalInMap eng (cancelCB eng s) goal).pose.px
              (goalInMap eng (cancelCB eng s) goal).pose.py) cfg.num_paths).2
          (eng.getPath (eng.clearPreviousPaths (cancelCB eng s).voronoi_path)
            (toGrid s.map start.pose.px start.pose.py)
            (toGrid s.map (goalInMap eng (cancelCB eng s) goal).pose.px
              (goalInMap eng (cancelCB eng s) goal).pose.py) cfg.num_paths).1
          cfg.path_waypoint_sep).1.map
          (toWorldPath s.map start (goalInMap eng (cancelCB eng s) goal)) := by
  have hsel := selectStrategy_fresh eng cfg (cancelCB eng s) start
    (goalInMap eng (cancelCB eng s) goal) plan hnear (Or.inl (hclear s.voronoi_path))
  refine ⟨by rw [hsel], by rw [hsel]; rfl, ?_⟩
  intro out hout
  rcases makePlan_plan_source eng cfg (cancelCB eng s) start goal plan out hout with h | h
  · left
    rw [h, hsel]
  · right
    rw [hsel] at h
    exact h

/-- C7 as the code has it, worked example: after the cancellation the robot at `(0, 0)`
asks for the stored goal `(1, 1)`. -/
theorem makePlan_after_cancel_fresh_witness :
    (selectStrategy demoEngine demoParams (cancelCB demoEngine demoCached) (demoPose 0 0)
      (goalInMap demoEngine (cancelCB demoEngine demoCached) (demoPose 1 1))
      []).state.preferred_path = 0 :=
  (makePlan_after_cancel_fresh demoEngine demoParams demoCached (demoPose 0 0) (demoPose 1 1) []
    (by intro e; rfl)
    (by norm_num [nearGoalReuse, sqrtLt, distSq, goalInMap, demoPose, demoCached, cancelCB,
      demoPlanner, demoMap, demoParams])).1

/-- C8 (trim/replan branch): in every `makePlan` call in which the near-goal reuse condition
does not hold, the engine reports previous paths and the stored goal equals the requested
goal cell, the candidates are the answer of
`replan(start, goal, num_paths, preferred index)`, strategy selection calls only
`hasPreviousPaths` and `replan` and leaves the preferred index and the stored goal
unchanged; whenever `makePlan` returns, its trace holds neither `getPath` nor
`clearPreviousPaths` and the stored goal is still unchanged. -/
theorem makePlan_trim_replan {E : Type} (eng : GraphEngine E) (cfg : Params)
    (s : Planner E) (start goal : PoseStamped) (plan : List PoseStamped)
    (hnear : nearGoalReuse cfg s start (goalInMap eng s goal) = false)
    (hprev : eng.hasPreviousPaths s.voronoi_path = true)
    (hgoal : s.prev_goal =
      toGrid s.map (goalInMap eng s goal).pose.px (goalInMap eng s goal).pose.py) :
    (selectStrategy eng cfg s start (goalInMap eng s goal) plan).state.all_paths =
      (eng.replan s.voronoi_path (toGrid s.map start.pose.px start.pose.py)
        (toGrid s.map (goalInMap eng s goal).pose.px (goalInMap eng s goal).pose.py)
        cfg.num_paths s.preferred_path).1 ∧
    (selectStrategy eng cfg s start (goalInMap eng s goal) plan).calls =
      [.hasPreviousPaths,
       .replan (toGrid s.map start.pose.px start.pose.py)
        (toGrid s.map (goalInMap eng s goal).pose.px (goalInMap eng s goal).pose.py)
        cfg.num_paths s.preferred_path] ∧
    (selectStrategy eng cfg s start (goalInMap eng s goal) plan).state.preferred_path =
      s.preferred_path ∧
    (selectStrategy eng cfg s start (goalInMap eng s goal) plan).state.prev_goal =
      s.prev_goal ∧
    ∀ out, makePlan eng cfg s start goal plan = some out →
      (∀ a b n, EngineCall.getPath a b n ∉ out.calls) ∧
      EngineCall.clearPreviousPaths ∉ out.calls ∧
      out.state.prev_goal = s.prev_goal := by
  have hsel := selectStrategy_trim eng cfg s start (goalInMap eng s goal) plan hnear hprev hgoal
  refine ⟨by rw [hsel], by rw [hsel], by rw [hsel], by rw [hsel], ?_⟩
  intro out hout
  obtain ⟨h1, rest, h2, h3⟩ := makePlan_extends eng cfg s start goal plan out hout
  rw [hsel] at h1 h2
  refine ⟨?_, ?_, h1⟩
  · intro a b n hmem
    rw [h2] at hmem
    rcases List.mem_append.mp hmem with hm | hm
    · simp at hm
    · rcases h3 _ hm with h | ⟨ps, sep, h⟩ <;> cases h
  · intro hmem
    rw [h2] at hmem
    rcases List.mem_append.mp hmem with hm | hm
    · simp at hm
    · rcases h3 _ hm with h | ⟨ps, sep, h⟩ <;> cases h

/-- C8, worked example: cached paths towards `(1, 1)`, the robot at `(0, 0)` asks for
`(1, 1)` again. -/
theorem makePlan_trim_replan_witness :
    (selectStrategy demoEngine demoParams demoCached (demoPose 0 0)
      (goalInMap demoEngine demoCached (demoPose 1 1)) []).calls =
      [.hasPreviousPaths,
       .replan (toGrid demoCached.map (demoPose 0 0).pose.px (demoPose 0 0).pose.py)
        (toGrid demoCached.map (goalInMap demoEngine demoCached (demoPose 1 1)).pose.px
          (goalInMap demoEngine demoCached (demoPose 1 1)).pose.py)
        demoParams.num_paths demoCached.preferred_path] :=
  (makePlan_trim_replan demoEngine demoParams demoCached (demoPose 0 0) (demoPose 1 1) []
    (by norm_num [nearGoalReuse, sqrtLt, distSq, goalInMap, demoPose, demoCached, demoPlanner,
      demoMap, demoParams])
    rfl
    (by norm_num [goalInMap, demoPose, demoCached, demoPlanner, demoMap, toGrid])).2.1

/-- C9, counterexample: the preferred index is `1` when the cycle begins, the cycle takes
the trim/replan branch and the engine yields one path of one waypoint although three were
requested; the operator's command is idle, so the index stays `1`, the size check before
the dereference fails, the plan stays empty and `makePlan` reports failure. -/
theorem makePlan_fewer_paths_stale_index :
    nearGoalReuse demoParams demoCached (demoPose 0 0)
        (goalInMap demoEngine demoCached (demoPose 1 1)) = false ∧
    (makePlan demoEngine demoParams demoCached (demoPose 0 0) (demoPose 1 1) []).map
        (fun o => (o.plan, o.ok, o.state.all_paths, o.state.preferred_path)) =
      some ([], false, [⟨7, [⟨0, 0⟩]⟩], 1) := by
  constructor
  · norm_num [nearGoalReuse, sqrtLt, distSq, goalInMap, demoPose, demoCached, demoPlanner,
      demoMap, demoParams]
  · norm_num [makePlan, selectStrategy, nearGoalReuse, sqrtLt, distSq, goalInMap, demoPose,
      demoCached, demoEngine, demoPlanner, demoMap, demoParams, toyEngine, toGrid, convertPaths,
      arbitrate, intentActive, joystickExceedsThreshold_zero, toWorldPath, toWorldPose,
      setFirstOrientation, setLastOrientation]

/-- C9, as the code has it (fewer paths than requested is non-fatal): in every planning
cycle that does not return early, is handed an empty plan vector, and in which the engine
yields at least one candidate, the interpolated candidates being `k` paths (fewer than
`num_paths` or not) of at least one waypoint each, `makePlan` reports success and commits
the world-frame path at the preferred index `p` left by strategy selection and arbitration,
provided `p < k`; that path is one of the `k` candidates in world coordinates. -/
theorem makePlan_fewer_paths {E : Type} (eng : GraphEngine E) (cfg : Params)
    (s : Planner E) (start goal : PoseStamped) (p : Nat)
    (hnear : nearGoalReuse cfg s start (goalInMap eng s goal) = false)
    (hfound : (selectStrategy eng cfg s start (goalInMap eng s goal) []).state.all_paths ≠ [])
    (hway : ∀ q ∈ (convertPaths eng cfg
      (selectStrategy eng cfg s start (goalInMap eng s goal) []).state start
      (goalInMap eng s goal)).all_paths, q.path ≠ [])
    (harb : arbitrate eng cfg
      (convertPaths eng cfg (selectStrategy eng cfg s start (goalInMap eng s goal) []).state
        start (goalInMap eng s goal)) start (goalInMap eng s goal) = some p)
    (hp : p < (convertPaths eng cfg
      (selectStrategy eng cfg s start (goalInMap eng s goal) []).state start
      (goalInMap eng s goal)).all_paths.length) :
    ∃ out, makePlan eng cfg s start goal [] = some out ∧ out.ok = true ∧ out.plan ≠ [] ∧
      out.state.preferred_path = p ∧
      out.plan = ((convertPaths eng cfg
        (selectStrategy eng cfg s start (goalInMap eng s goal) []).state start
        (goalInMap eng s goal)).all_paths.map
          (toWorldPath s.map start (goalInMap eng s goal))).getD p [] ∧
      out.plan ∈ (convertPaths eng cfg
        (selectStrategy eng cfg s start (goalInMap eng s goal) []).state start
        (goalInMap eng s goal)).all_paths.map
          (toWorldPath s.map start (goalInMap eng s goal)) := by
  have hplan : (selectStrategy eng cfg s start (goalInMap eng s goal) []).plan = [] := by
    simp only [selectStrategy, hnear, Bool.false_eq_true, if_false]
    split <;> rfl
  have hmap : (selectStrategy eng cfg s start (goalInMap eng s goal) []).state.map = s.map := by
    simp only [selectStrategy, hnear, Bool.false_eq_true, if_false]
    split <;> rfl
  have hmeters : (convertPaths eng cfg
      (selectStrategy eng cfg s start (goalInMap eng s goal) []).state start
      (goalInMap eng s goal)).all_paths_meters =
      (convertPaths eng cfg
        (selectStrategy eng cfg s start (goalInMap eng s goal) []).state start
        (goalInMap eng s goal)).all_paths.map
          (toWorldPath s.map start (goalInMap eng s goal)) := by
    rw [← hmap]
    rfl
  have hc : (!(selectStrategy eng cfg s start (goalInMap eng s goal) []).state.all_paths.isEmpty
      && (selectStrategy eng cfg s start (goalInMap eng s goal) []).plan.isEmpty) = true := by
    rw [hplan]
    cases hl : (selectStrategy eng cfg s start (goalInMap eng s goal) []).state.all_paths with
    | nil => exact absurd hl hfound
    | cons a t => rfl
  have hlen : p < (convertPaths eng cfg
      (selectStrategy eng cfg s start (goalInMap eng s goal) []).state start
      (goalInMap eng s goal)).all_paths_meters.length := by
    rw [hmeters, List.length_map]
    exact hp
  have hmem : (convertPaths eng cfg
      (selectStrategy eng cfg s start (goalInMap eng s goal) []).state start
      (goalInMap eng s goal)).all_paths_meters.getD p [] ∈
      (convertPaths eng cfg
        (selectStrategy eng cfg s start (goalInMap eng s goal) []).state start
        (goalInMap eng s goal)).all_paths_meters := by
    rw [List.getD_eq_getElem _ _ hlen]
    exact List.getElem_mem _
  have hne : (convertPaths eng cfg
      (selectStrategy eng cfg s start (goalInMap eng s goal) []).state start
      (goalInMap eng s goal)).all_paths_meters.getD p [] ≠ [] := by
    have h1 := hmem
    rw [hmeters] at h1
    rw [hmeters]
    obtain ⟨q, hq, hqe⟩ := List.mem_map.mp h1
    rw [← hqe]
    exact toWorldPath_ne_nil _ _ _ _ (hway q hq)
  have hemp : ((convertPaths eng cfg
      (selectStrategy eng cfg s start (goalInMap eng s goal) []).state start
      (goalInMap eng s goal)).all_paths_meters.getD p []).isEmpty = false := by
    cases hl : (convertPaths eng cfg
      (selectStrategy eng cfg s start (goalInMap eng s goal) []).state start
      (goalInMap eng s goal)).all_paths_meters.getD p [] with
    | nil => exact absurd hl hne
    | cons a t => rfl
  refine ⟨_, makePlan_of_convert eng cfg s start goal [] p hc harb, ?_, ?_, rfl, ?_, ?_⟩
  · simp only [hlen, if_true, hemp, Bool.not_false]
  · simp only [hlen, if_true]
    exact hne
  · simp only [hlen, if_true]
    rw [hmeters]
  · simp only [hlen, if_true]
    rw [← hmeters]
    exact hmem

/-- C9 as the code has it, worked example: a fresh plan towards the new goal `(0, 0)`; the
engine yields one path although three were requested, and the preferred index, `1` when the
cycle began, is `0` after strategy selection. -/
theorem makePlan_fewer_paths_witness :
    ∃ out, makePlan demoEngine demoParams demoCached (demoPose 1 1) (demoPose 0 0) [] =
        some out ∧ out.ok = true ∧ out.plan ≠ [] ∧ out.state.preferred_path = 0 :=
  have h := makePlan_fewer_paths demoEngine demoParams demoCached (demoPose 1 1)
    (demoPose 0 0) 0
    (by norm_num [nearGoalReuse, sqrtLt, distSq, goalInMap, demoPose, demoCached, demoPlanner,
      demoMap, demoParams])
    (by norm_num [selectStrategy, nearGoalReuse, sqrtLt, distSq, goalInMap, demoPose,
      demoCached, demoEngine, demoPlanner, demoMap, demoParams, toyEngine, toGrid])
    (by norm_num [convertPaths, selectStrategy, nearGoalReuse, sqrtLt, distSq, goalInMap,
      demoPose, demoCached, demoEngine, demoPlanner, demoMap, demoParams, toyEngine, toGrid])
    (by norm_num [arbitrate, intentActive, joystickExceedsThreshold_zero, convertPaths,
      selectStrategy, nearGoalReuse, sqrtLt, distSq, goalInMap, demoPose, demoCached,
      demoEngine, demoPlanner, demoMap, demoParams, toyEngine, toGrid])
    (by norm_num [convertPaths, selectStrategy, nearGoalReuse, sqrtLt, distSq, goalInMap,
      demoPose, demoCached, demoEngine, demoPlanner, demoMap, demoParams, toyEngine, toGrid])
  h.imp (fun _ ho => ⟨ho.1, ho.2.1, ho.2.2.1, ho.2.2.2.1⟩)

/-! ## The disqualification loop of `getMatchedPath` -/

theorem minElementFrom_rat (xs : List ℚ) :
    ∀ (bi : Nat) (bv : ℚ) (i : Nat),
      ∃ v, ((minElementFrom (fun a b => decide (a < b)) bi bv i xs = bi ∧ v = bv) ∨
          (i ≤ minElementFrom (fun a b => decide (a < b)) bi bv i xs ∧
            xs[minElementFrom (fun a b => decide (a < b)) bi bv i xs - i]? = some v)) ∧
        v ≤ bv ∧ ∀ x ∈ xs, v ≤ x := by
  induction xs with
  | nil =>
    intro bi bv i
    exact ⟨bv, Or.inl ⟨rfl, rfl⟩, le_refl _, by simp⟩
  | cons y ys ih =>
    intro bi bv i
    by_cases hy : y < bv
    · obtain ⟨v, hv, hle, hall⟩ := ih i y (i + 1)
      have hr : minElementFrom (fun a b => decide (a < b)) bi bv i (y :: ys) =
          minElementFrom (fun a b => decide (a < b)) i y (i + 1) ys := by
        simp [minElementFrom, hy]
      rw [hr]
      refine ⟨v, Or.inr ?_, le_trans hle hy.le, ?_⟩
      · rcases hv with ⟨h1, h2⟩ | ⟨h1, h2⟩
        · rw [h1, h2]
          simp
        · refine ⟨by omega, ?_⟩
          have e : minElementFrom (fun a b => decide (a < b)) i y (i + 1) ys - i =
              (minElementFrom (fun a b => decide (a < b)) i y (i + 1) ys - (i + 1)) + 1 := by
            omega
          rw [e, List.getElem?_cons_succ]
          exact h2
      · intro x hx
        rcases List.mem_cons.mp hx with rfl | hx
        · exact hle
        · exact hall x hx
    · obtain ⟨v, hv, hle, hall⟩ := ih bi bv (i + 1)
      have hr : minElementFrom (fun a b => decide (a < b)) bi bv i (y :: ys) =
          minElementFrom (fun a b => decide (a < b)) bi bv (i + 1) ys := by
        simp [minElementFrom, hy]
      rw [hr]
      refine ⟨v, ?_, hle, ?_⟩
      · rcases hv with ⟨h1, h2⟩ | ⟨h1, h2⟩
        · exact Or.inl ⟨h1, h2⟩
        · refine Or.inr ⟨by omega, ?_⟩
          have e : minElementFrom (fun a b => decide (a < b)) bi bv (i + 1) ys - i =
              (minElementFrom (fun a b => decide (a < b)) bi bv (i + 1) ys - (i + 1)) + 1 := by
            omega
          rw [e, List.getElem?_cons_succ]
          exact h2
      · intro x hx
        rcases List.mem_cons.mp hx with rfl | hx
        · exact le_trans hle (not_lt.mp hy)
        · exact hall x hx

theorem minElementVal_rat (l : List ℚ) (hne : l ≠ []) :
    ∃ m, minElementVal (fun a b => decide (a < b)) l = some m ∧ m ∈ l ∧ ∀ x ∈ l, m ≤ x := by
  cases l with
  | nil => exact absurd rfl hne
  | cons x xs =>
    obtain ⟨v, hv, hle, hall⟩ := minElementFrom_rat xs 0 x 1
    have hget : (x :: xs)[minElementFrom (fun a b => decide (a < b)) 0 x 1 xs]? = some v := by
      rcases hv with ⟨h1, h2⟩ | ⟨h1, h2⟩
      · rw [h1, h2]
        simp
      · have e : minElementFrom (fun a b => decide (a < b)) 0 x 1 xs =
            (minElementFrom (fun a b => decide (a < b)) 0 x 1 xs - 1) + 1 := by omega
        rw [e, List.getElem?_cons_succ]
        exact h2
    refine ⟨v, hget, ?_, ?_⟩
    · obtain ⟨h, hh⟩ := List.getElem?_eq_some.mp hget
      rw [← hh]
      exact List.getElem_mem _
    · intro y hy
      rcases List.mem_cons.mp hy with rfl | hy
      · exact hle
      · exact hall y hy

theorem penalise_spec (t m : ℚ) (scores : List ℚ) :
    ∀ (i : Nat) (costs : List Dbl), i + scores.length ≤ costs.length →
      ∃ pc, penalise t m i scores costs = some pc ∧ pc.length = costs.length ∧
        (∀ j, j < i → pc[j]? = costs[j]?) ∧
        (∀ j v, scores[j]? = some v →
          pc[i + j]? = if Dbl.ge (Dbl.ofDiv v m) (.fin t) = true then some .pinf
            else costs[i + j]?) ∧
        (∀ j, i + scores.length ≤ j → pc[j]? = costs[j]?) := by
  induction scores with
  | nil =>
    intro i costs _
    exact ⟨costs, rfl, rfl, fun _ _ => rfl, by simp, fun _ _ => rfl⟩
  | cons sc rest ih =>
    intro i costs hlen
    simp only [List.length_cons] at hlen
    by_cases hd : Dbl.ge (Dbl.ofDiv sc m) (.fin t) = true
    · obtain ⟨pc, h1, h2, h3, h4, h5⟩ := ih (i + 1) (costs.set i .pinf) (by simp; omega)
      refine ⟨pc, ?_, by simpa using h2, ?_, ?_, ?_⟩
      · simp only [penalise, hd, if_true]
        rw [if_pos (by omega)]
        exact h1
      · intro j hj
        rw [h3 j (by omega), List.getElem?_set_ne (by omega)]
      · intro j v hv
        cases j with
        | zero =>
          simp only [List.getElem?_cons_zero, Option.some.injEq] at hv
          subst hv
          rw [Nat.add_zero, h3 i (by omega), List.getElem?_set, if_pos rfl, if_pos (by omega),
            if_pos hd]
        | succ k =>
          rw [List.getElem?_cons_succ] at hv
          have := h4 k v hv
          rw [List.getElem?_set_ne (by omega)] at this
          rw [show i + (k + 1) = i + 1 + k by omega]
          exact this
      · intro j hj
        simp only [List.length_cons] at hj
        rw [h5 j (by omega), List.getElem?_set_ne (by omega)]
    · obtain ⟨pc, h1, h2, h3, h4, h5⟩ := ih (i + 1) costs (by omega)
      refine ⟨pc, ?_, h2, ?_, ?_, ?_⟩
      · simp only [penalise, hd]
        exact h1
      · intro j hj
        exact h3 j (by omega)
      · intro j v hv
        cases j with
        | zero =>
          simp only [List.getElem?_cons_zero, Option.some.injEq] at hv
          subst hv
          rw [Nat.add_zero, h3 i (by omega), if_neg hd]
        | succ k =>
          rw [List.getElem?_cons_succ] at hv
          have := h4 k v hv
          rw [show i + (k + 1) = i + 1 + k by omega]
          exact this
      · intro j hj
        simp only [List.length_cons] at hj
        exact h5 j (by omega)

/-! ## Claim on the disqualification rule -/

theorem Dbl.lt_iff_key (a b : Dbl) (ha : a ≠ .nan) (hb : b ≠ .nan) :
    Dbl.lt a b = true ↔ Dbl.key a < Dbl.key b := by
  cases a <;> cases b <;>
    simp [Dbl.lt, Dbl.key, WithBot.coe_lt_coe, WithTop.coe_lt_coe, WithTop.coe_lt_top,
      WithBot.bot_lt_coe] at ha hb ⊢
  rw [← WithBot.coe_top, WithBot.coe_lt_coe]
  exact WithTop.coe_lt_top _

theorem Dbl.le_iff_key (a b : Dbl) (ha : a ≠ .nan) (hb : b ≠ .nan) :
    Dbl.le a b = true ↔ Dbl.key a ≤ Dbl.key b := by
  cases a <;> cases b <;>
    simp [Dbl.le, Dbl.lt, Dbl.key, WithBot.coe_le_coe, WithTop.coe_le_coe] at ha hb ⊢

theorem minElementFrom_key {α β : Type} [LinearOrder β] (key : α → β) (lt : α → α → Bool)
    (xs : List α) :
    ∀ (bi : Nat) (bv : α) (i : Nat), bi < i →
      (∀ a b, a ∈ bv :: xs → b ∈ bv :: xs → (lt a b = true ↔ key a < key b)) →
      ∃ v, ((minElementFrom lt bi bv i xs = bi ∧ v = bv) ∨
          (i ≤ minElementFrom lt bi bv i xs ∧ xs[minElementFrom lt bi bv i xs - i]? = some v)) ∧
        minElementFrom lt bi bv i xs < i + xs.length ∧
        key v ≤ key bv ∧ (∀ x ∈ xs, key v ≤ key x) ∧
        (∀ (j : Nat) (x : α), xs[j]? = some x → i + j < minElementFrom lt bi bv i xs →
          key v < key x) ∧
        (minElementFrom lt bi bv i xs ≠ bi → key v < key bv) := by
  induction xs with
  | nil =>
    intro bi bv i hbi _
    refine ⟨bv, Or.inl ⟨rfl, rfl⟩, ?_, le_refl _, by simp, by simp, ?_⟩
    · simp only [minElementFrom, List.length_nil]
      omega
    · intro h
      exact absurd rfl h
  | cons y ys ih =>
    intro bi bv i hbi hlt
    by_cases hy : lt y bv = true
    · have hkey : key y < key bv :=
        (hlt y bv (by simp) (by simp)).mp hy
      obtain ⟨v, hv, hb, hle, hall, hbefore, hne⟩ := ih i y (i + 1) (by omega)
        (fun a b ha hb => hlt a b (List.mem_cons_of_mem _ ha) (List.mem_cons_of_mem _ hb))
      have hr : minElementFrom lt bi bv i (y :: ys) = minElementFrom lt i y (i + 1) ys := by
        simp [minElementFrom, hy]
      rw [hr]
      refine ⟨v, Or.inr ?_, ?_, le_of_lt (lt_of_le_of_lt hle hkey), ?_, ?_, ?_⟩
      · rcases hv with ⟨h1, h2⟩ | ⟨h1, h2⟩
        · rw [h1, h2]
          simp
        · refine ⟨by omega, ?_⟩
          have e : minElementFrom lt i y (i + 1) ys - i =
              (minElementFrom lt i y (i + 1) ys - (i + 1)) + 1 := by omega
          rw [e, List.getElem?_cons_succ]
          exact h2
      · simp only [List.length_cons]
        omega
      · intro x hx
        rcases List.mem_cons.mp hx with rfl | hx
        · exact hle
        · exact hall x hx
      · intro j x hx hj
        cases j with
        | zero =>
          simp only [List.getElem?_cons_zero, Option.some.injEq] at hx
          subst hx
          exact hne (by omega)
        | succ k =>
          rw [List.getElem?_cons_succ] at hx
          exact hbefore k x hx (by omega)
      · intro _
        exact lt_of_le_of_lt hle hkey
    · have hkey : key bv ≤ key y :=
        not_lt.mp (fun h => hy ((hlt y bv (by simp) (by simp)).mpr h))
      obtain ⟨v, hv, hb, hle, hall, hbefore, hne⟩ := ih bi bv (i + 1) (by omega)
        (fun a b ha hb => hlt a b
          (by rcases List.mem_cons.mp ha with h | h
              · exact h ▸ List.mem_cons_self _ _
              · exact List.mem_cons_of_mem _ (List.mem_cons_of_mem _ h))
          (by rcases List.mem_cons.mp hb with h | h
              · exact h ▸ List.mem_cons_self _ _
              · exact List.mem_cons_of_mem _ (List.mem_cons_of_mem _ h)))
      have hr : minElementFrom lt bi bv i (y :: ys) = minElementFrom lt bi bv (i + 1) ys := by
        simp [minElementFrom, hy]
      rw [hr]
      refine ⟨v, ?_, ?_, hle, ?_, ?_, hne⟩
      · rcases hv with ⟨h1, h2⟩ | ⟨h1, h2⟩
        · exact Or.inl ⟨h1, h2⟩
        · refine Or.inr ⟨by omega, ?_⟩
          have e : minElementFrom lt bi bv (i + 1) ys - i =
              (minElementFrom lt bi bv (i + 1) ys - (i + 1)) + 1 := by omega
          rw [e, List.getElem?_cons_succ]
          exact h2
      · simp only [List.length_cons]
        omega
      · intro x hx
        rcases List.mem_cons.mp hx with rfl | hx
        · exact le_trans hle hkey
        · exact hall x hx
      · intro j x hx hj
        cases j with
        | zero =>
          simp only [List.getElem?_cons_zero, Option.some.injEq] at hx
          subst hx
          exact lt_of_lt_of_le (hne (by omega)) hkey
        | succ k =>
          rw [List.getElem?_cons_succ] at hx
          exact hbefore k x hx (by omega)

theorem minElementIdx_key {α β : Type} [LinearOrder β] (key : α → β) (lt : α → α → Bool)
    (l : List α) (hne : l ≠ [])
    (hlt : ∀ a b, a ∈ l → b ∈ l → (lt a b = true ↔ key a < key b)) :
    ∃ v, l[minElementIdx lt l]? = some v ∧ minElementIdx lt l < l.length ∧
      (∀ x ∈ l, key v ≤ key x) ∧
      ∀ (j : Nat) (x : α), l[j]? = some x → j < minElementIdx lt l → key v < key x := by
  cases l with
  | nil => exact absurd rfl hne
  | cons x xs =>
    obtain ⟨v, hv, hb, hle, hall, hbefore, hne0⟩ :=
      minElementFrom_key key lt xs 0 x 1 (by omega) hlt
    have hget : (x :: xs)[minElementFrom lt 0 x 1 xs]? = some v := by
      rcases hv with ⟨h1, h2⟩ | ⟨h1, h2⟩
      · rw [h1, h2]
        simp
      · have e : minElementFrom lt 0 x 1 xs = (minElementFrom lt 0 x 1 xs - 1) + 1 := by omega
        rw [e, List.getElem?_cons_succ]
        exact h2
    refine ⟨v, hget, ?_, ?_, ?_⟩
    · simp only [minElementIdx, List.length_cons]
      omega
    · intro y hy
      rcases List.mem_cons.mp hy with rfl | hy
      · exact hle
      · exact hall y hy
    · intro j y hy hj
      simp only [minElementIdx] at hj
      cases j with
      | zero =>
        simp only [List.getElem?_cons_zero, Option.some.injEq] at hy
        subst hy
        exact hne0 (by omega)
      | succ k =>
        rw [List.getElem?_cons_succ] at hy
        exact hbefore k y hy (by omega)

theorem penalise_no_nan (t m : ℚ) (scores : List ℚ) (costs pc : List Dbl)
    (hlen : scores.length ≤ costs.length) (hnan : ∀ c ∈ costs, c ≠ Dbl.nan)
    (hp : penalise t m 0 scores costs = some pc) : ∀ c ∈ pc, c ≠ Dbl.nan := by
  obtain ⟨pc1, h1, h2, _, h4, h5⟩ := penalise_spec t m scores 0 costs (by omega)
  rw [hp] at h1
  have hpc : pc1 = pc := (Option.some.inj h1).symm
  subst hpc
  intro c hc
  obtain ⟨j, hj, hjc⟩ := List.getElem_of_mem hc
  have hget : pc1[j]? = some c := by rw [List.getElem?_eq_getElem hj, hjc]
  have hcost : ∀ cj, costs[j]? = some cj → cj ≠ Dbl.nan := by
    intro cj hcj
    obtain ⟨h, hh⟩ := List.getElem?_eq_some.mp hcj
    exact hnan cj (hh ▸ List.getElem_mem _)
  by_cases hjs : j < scores.length
  · have := h4 j scores[j] (List.getElem?_eq_getElem hjs)
    rw [Nat.zero_add, hget] at this
    split at this
    · rw [Option.some.inj this]
      intro h
      cases h
    · exact hcost c this.symm
  · have := h5 j (by omega)
    rw [hget] at this
    exact hcost c this.symm

/-! ## Claim on the selection of the minimum -/

/-- C11 (selection of the minimum, lowest index first): for every non-empty candidate set
whose engine costs are numbers (no NaN) and as many as the candidates, `getMatchedPath`
returns without fault an index `i` below the number of candidates such that, `c` being the
penalised cost vector, `c_i <= c_j` for every `j` and `c_i < c_j` for every `j < i`; when all
penalised costs are infinite it returns `0`. -/
theorem getMatchedPath_first_minimum {E : Type} (eng : GraphEngine E) (cfg : Params)
    (s : Planner E) (curr_pose : PoseStamped) (plans_ : List (List PoseStamped))
    (hne : plans_ ≠ [])
    (hlen : (eng.getAllPathCosts s.voronoi_path).length = plans_.length)
    (hnan : ∀ c ∈ eng.getAllPathCosts s.voronoi_path, c ≠ Dbl.nan) :
    ∃ (m : ℚ) (pc : List Dbl) (i : Nat) (ci : Dbl),
      minElementVal (fun a b => decide (a < b))
        (plans_.map (eng.pathDeviation s.cmd_vel curr_pose)) = some m ∧
      penalise cfg.selection_threshold m 0 (plans_.map (eng.pathDeviation s.cmd_vel curr_pose))
        (eng.getAllPathCosts s.voronoi_path) = some pc ∧
      pc.length = plans_.length ∧
      getMatchedPath eng cfg s curr_pose plans_ = some i ∧ i < plans_.length ∧
      pc[i]? = some ci ∧
      (∀ (j : Nat) (cj : Dbl), pc[j]? = some cj → Dbl.le ci cj = true) ∧
      (∀ (j : Nat) (cj : Dbl), pc[j]? = some cj → j < i → Dbl.lt ci cj = true) ∧
      ((∀ c ∈ pc, c = Dbl.pinf) → i = 0) := by
  have hsne : plans_.map (eng.pathDeviation s.cmd_vel curr_pose) ≠ [] := by
    simpa using hne
  have hslen : (plans_.map (eng.pathDeviation s.cmd_vel curr_pose)).length ≤
      (eng.getAllPathCosts s.voronoi_path).length := by
    rw [List.length_map, hlen]
  obtain ⟨m, hm, _, _⟩ := minElementVal_rat _ hsne
  obtain ⟨pc, h1, h2, _, _, _⟩ := penalise_spec cfg.selection_threshold m
    (plans_.map (eng.pathDeviation s.cmd_vel curr_pose)) 0 (eng.getAllPathCosts s.voronoi_path)
    (by omega)
  have hpcnan := penalise_no_nan _ _ _ _ pc hslen hnan h1
  have hpclen : pc.length = plans_.length := by rw [h2, hlen]
  have hpcne : pc ≠ [] := by
    intro h
    rw [h] at hpclen
    exact hne (List.length_eq_zero.mp hpclen.symm)
  obtain ⟨ci, hget, hidx, hmin, hfirst⟩ := minElementIdx_key Dbl.key Dbl.lt pc hpcne
    (fun a b ha hb => Dbl.lt_iff_key a b (hpcnan a ha) (hpcnan b hb))
  have hci : ci ≠ Dbl.nan := by
    obtain ⟨h, hh⟩ := List.getElem?_eq_some.mp hget
    exact hpcnan ci (hh ▸ List.getElem_mem _)
  have hmem : ∀ (j : Nat) (cj : Dbl), pc[j]? = some cj → cj ∈ pc := by
    intro j cj hj
    obtain ⟨h, hh⟩ := List.getElem?_eq_some.mp hj
    exact hh ▸ List.getElem_mem _
  refine ⟨m, pc, minElementIdx Dbl.lt pc, ci, hm, h1, hpclen, ?_, by omega, hget, ?_, ?_, ?_⟩
  · simp only [getMatchedPath, selectMatched, hm, h1]
  · intro j cj hj
    exact (Dbl.le_iff_key ci cj hci (hpcnan cj (hmem j cj hj))).mpr (hmin cj (hmem j cj hj))
  · intro j cj hj hlt
    exact (Dbl.lt_iff_key ci cj hci (hpcnan cj (hmem j cj hj))).mpr (hfirst j cj hj hlt)
  · intro hall
    by_contra hpos
    have h0 : 0 < pc.length := by omega
    have hlt := hfirst 0 pc[0] (List.getElem?_eq_getElem h0) (by omega)
    rw [hall ci (hmem _ ci hget), hall pc[0] (List.getElem_mem _)] at hlt
    exact lt_irrefl _ hlt

/-- C11, worked example: two cached candidates with engine costs `[5, 5]` and equal
deviation scores. -/
theorem getMatchedPath_first_minimum_witness :
    ∃ (m : ℚ) (pc : List Dbl) (i : Nat) (ci : Dbl),
      minElementVal (fun a b => decide (a < b))
        (demoCached.all_paths_meters.map
          ((toyEngine [] [.fin 5, .fin 5] 1).pathDeviation demoCached.cmd_vel (demoPose 0 0)))
        = some m ∧
      penalise demoParams.selection_threshold m 0
        (demoCached.all_paths_meters.map
          ((toyEngine [] [.fin 5, .fin 5] 1).pathDeviation demoCached.cmd_vel (demoPose 0 0)))
        ((toyEngine [] [.fin 5, .fin 5] 1).getAllPathCosts demoCached.voronoi_path) = some pc ∧
      pc.length = demoCached.all_paths_meters.length ∧
      getMatchedPath (toyEngine [] [.fin 5, .fin 5] 1) demoParams demoCached (demoPose 0 0)
        demoCached.all_paths_meters = some i ∧
      i < demoCached.all_paths_meters.length ∧
      pc[i]? = some ci ∧
      (∀ (j : Nat) (cj : Dbl), pc[j]? = some cj → Dbl.le ci cj = true) ∧
      (∀ (j : Nat) (cj : Dbl), pc[j]? = some cj → j < i → Dbl.lt ci cj = true) ∧
      ((∀ c ∈ pc, c = Dbl.pinf) → i = 0) :=
  getMatchedPath_first_minimum (toyEngine [] [.fin 5, .fin 5] 1) demoParams demoCached
    (demoPose 0 0) demoCached.all_paths_meters
    (by simp [demoCached, demoPlanner])
    (by simp [toyEngine, demoCached, demoPlanner])
    (by
      intro c hc
      simp only [toyEngine, List.mem_cons, List.mem_singleton, List.not_mem_nil, or_false] at hc
      rcases hc with rfl | rfl <;> simp)

/-! ## Claim on the arbitration trigger -/

theorem setFirstOrientation_head (q : Quaternion) (l : List PoseStamped) (h : l ≠ []) :
    (setFirstOrientation q l).head?.map (fun a => a.pose.orientation) = some q := by
  cases l with
  | nil => exact absurd rfl h
  | cons a t => simp [setFirstOrientation]

theorem setFirstOrientation_positions (q : Quaternion) (l : List PoseStamped) :
    (setFirstOrientation q l).map (fun a => (a.frame_id, a.pose.px, a.pose.py, a.pose.pz)) =
      l.map (fun a => (a.frame_id, a.pose.px, a.pose.py, a.pose.pz)) := by
  cases l with
  | nil => rfl
  | cons a t => simp [setFirstOrientation]

theorem setFirstOrientation_length (q : Quaternion) (l : List PoseStamped) :
    (setFirstOrientation q l).length = l.length := by
  cases l with
  | nil => rfl
  | cons a t => simp [setFirstOrientation]

theorem setLastOrientation_positions (q : Quaternion) :
    ∀ l : List PoseStamped,
      (setLastOrientation q l).map (fun a => (a.frame_id, a.pose.px, a.pose.py, a.pose.pz)) =
        l.map (fun a => (a.frame_id, a.pose.px, a.pose.py, a.pose.pz))
  | [] => rfl
  | [a] => by simp [setLastOrientation]
  | a :: b :: t => by
    have ih := setLastOrientation_positions q (b :: t)
    simp only [setLastOrientation, List.map_cons] at ih ⊢
    rw [ih]

theorem setLastOrientation_getLast (q : Quaternion) :
    ∀ l : List PoseStamped, l ≠ [] →
      (setLastOrientation q l).getLast?.map (fun a => a.pose.orientation) = some q
  | [], h => absurd rfl h
  | [a], _ => by simp [setLastOrientation]
  | a :: b :: t, _ => by
    have ih := setLastOrientation_getLast q (b :: t) (by simp)
    have hne : setLastOrientation q (b :: t) ≠ [] := setLastOrientation_ne_nil q _ (by simp)
    simp only [setLastOrientation]
    obtain ⟨c, u, hcu⟩ := List.exists_cons_of_ne_nil hne
    rw [hcu] at ih ⊢
    rw [List.getLast?_cons_cons]
    exact ih

theorem setLastOrientation_head (q : Quaternion) (l : List PoseStamped) (h : 2 ≤ l.length) :
    (setLastOrientation q l).head? = l.head? := by
  cases l with
  | nil => rfl
  | cons a t =>
    cases t with
    | nil => simp at h
    | cons b u => simp [setLastOrientation]

theorem toWorldPath_spec (m : Map) (start_ goal_ : PoseStamped) (p : Path)
    (hlen : 1 ≤ p.path.length) :
    (toWorldPath m start_ goal_ p).map
        (fun a => (a.frame_id, a.pose.px, a.pose.py, a.pose.pz)) =
      p.path.map (fun n => (m.frame_id, n.x * m.resolution + m.origin_x,
        n.y * m.resolution + m.origin_y, (0 : ℚ))) ∧
    (toWorldPath m start_ goal_ p).getLast?.map (fun a => a.pose.orientation) =
      some goal_.pose.orientation ∧
    (2 ≤ p.path.length →
      (toWorldPath m start_ goal_ p).head?.map (fun a => a.pose.orientation) =
        some start_.pose.orientation) ∧
    (p.path.length = 1 →
      (toWorldPath m start_ goal_ p).head?.map (fun a => a.pose.orientation) =
        some goal_.pose.orientation) := by
  have hne : p.path.map (toWorldPose m) ≠ [] := by
    intro h
    have h2 := congrArg List.length h
    rw [List.length_map, List.length_nil] at h2
    omega
  have hne1 : setFirstOrientation start_.pose.orientation (p.path.map (toWorldPose m)) ≠ [] :=
    setFirstOrientation_ne_nil _ _ hne
  refine ⟨?_, ?_, ?_, ?_⟩
  · simp only [toWorldPath]
    rw [setLastOrientation_positions, setFirstOrientation_positions, List.map_map]
    rfl
  · exact setLastOrientation_getLast _ _ hne1
  · intro h2
    simp only [toWorldPath]
    rw [setLastOrientation_head _ _ (by rw [setFirstOrientation_length]; simpa using h2)]
    exact setFirstOrientation_head _ _ hne
  · intro h1
    obtain ⟨n, hn⟩ := List.length_eq_one.mp h1
    simp [toWorldPath, hn, setFirstOrientation, setLastOrientation]

/-! ## Claim on the endpoint orientations -/

/-- C14, counterexample: the start pose has orientation `(0, 0, 1, 0)`, the goal pose the
identity orientation, and the engine yields one path of a single waypoint; the plan
`makePlan` commits is that waypoint carrying the goal orientation, since line 275 writes
`back()` after line 274 wrote `[0]`: the first pose does not carry the start orientation. -/
theorem makePlan_single_waypoint_orientation :
    (makePlan demoEngine demoParams demoCached
        { frame_id := "map", pose := { px := 1, py := 1, pz := 0, orientation := ⟨0, 0, 1, 0⟩ } }
        (demoPose 0 0) []).map (fun o => o.plan.map (fun a => a.pose.orientation)) =
      some [⟨0, 0, 0, 1⟩] ∧
    (⟨0, 0, 0, 1⟩ : Quaternion) ≠ ⟨0, 0, 1, 0⟩ := by
  constructor
  · norm_num [makePlan, selectStrategy, nearGoalReuse, sqrtLt, distSq, goalInMap, demoPose,
      demoCached, demoEngine, demoPlanner, demoMap, demoParams, toyEngine, toGrid, convertPaths,
      arbitrate, intentActive, joystickExceedsThreshold_zero, toWorldPath, toWorldPose,
      setFirstOrientation, setLastOrientation]
  · intro h
    have := congrArg Quaternion.z h
    norm_num at this

/-- C14, as the code has it (endpoint orientations): for every candidate path with at least
one waypoint that `makePlan` converts to world coordinates, every pose of the world-frame
path is in the map frame at grid coordinate `* resolution + origin` (`z = 0`), and the last
pose carries the goal orientation (of the goal in the map frame); the first pose carries the
start orientation when the path has at least two waypoints, and the goal orientation when
it has exactly one. -/
theorem convertPaths_endpoint_orientations {E : Type} (eng : GraphEngine E) (cfg : Params)
    (st : Planner E) (start_ goal_ : PoseStamped) (i : Nat) (p : Path)
    (hp : (convertPaths eng cfg st start_ goal_).all_paths[i]? = some p)
    (hlen : 1 ≤ p.path.length) :
    ∃ w, (convertPaths eng cfg st start_ goal_).all_paths_meters[i]? = some w ∧
      w.map (fun a => (a.frame_id, a.pose.px, a.pose.py, a.pose.pz)) =
        p.path.map (fun n => (st.map.frame_id, n.x * st.map.resolution + st.map.origin_x,
          n.y * st.map.resolution + st.map.origin_y, (0 : ℚ))) ∧
      w.getLast?.map (fun a => a.pose.orientation) = some goal_.pose.orientation ∧
      (2 ≤ p.path.length →
        w.head?.map (fun a => a.pose.orientation) = some start_.pose.orientation) ∧
      (p.path.length = 1 →
        w.head?.map (fun a => a.pose.orientation) = some goal_.pose.orientation) := by
  have hm : (convertPaths eng cfg st start_ goal_).all_paths_meters =
      (convertPaths eng cfg st start_ goal_).all_paths.map (toWorldPath st.map start_ goal_) :=
    rfl
  refine ⟨toWorldPath st.map start_ goal_ p, ?_, toWorldPath_spec st.map start_ goal_ p hlen⟩
  rw [hm, List.getElem?_map, hp]
  rfl

/-- C14 as the code has it, worked example: a candidate of two waypoints between a start
of orientation `(0, 0, 1, 0)` and a goal of identity orientation. -/
theorem convertPaths_endpoint_orientations_witness :
    ∃ w, (convertPaths (toyEngine [] [] 0) demoParams
        (demoPlanner demoMap [] true [⟨0, [⟨0, 0⟩, ⟨1, 1⟩]⟩] [] 0 ⟨1, 1⟩)
        { frame_id := "map", pose := { px := 0, py := 0, pz := 0, orientation := ⟨0, 0, 1, 0⟩ } }
        (demoPose 1 1)).all_paths_meters[0]? = some w ∧
      w.map (fun a => (a.frame_id, a.pose.px, a.pose.py, a.pose.pz)) =
        [(⟨0, 0⟩ : GraphNode), ⟨1, 1⟩].map (fun n => (demoMap.frame_id,
          n.x * demoMap.resolution + demoMap.origin_x,
          n.y * demoMap.resolution + demoMap.origin_y, (0 : ℚ))) ∧
      w.getLast?.map (fun a => a.pose.orientation) = some ⟨0, 0, 0, 1⟩ ∧
      (2 ≤ [(⟨0, 0⟩ : GraphNode), ⟨1, 1⟩].length →
        w.head?.map (fun a => a.pose.orientation) = some ⟨0, 0, 1, 0⟩) ∧
      ([(⟨0, 0⟩ : GraphNode), ⟨1, 1⟩].length = 1 →
        w.head?.map (fun a => a.pose.orientation) = some ⟨0, 0, 0, 1⟩) :=
  convertPaths_endpoint_orientations (toyEngine [] [] 0) demoParams
    (demoPlanner demoMap [] true [⟨0, [⟨0, 0⟩, ⟨1, 1⟩]⟩] [] 0 ⟨1, 1⟩)
    { frame_id := "map", pose := { px := 0, py := 0, pz := 0, orientation := ⟨0, 0, 1, 0⟩ } }
    (demoPose 1 1) 0 ⟨0, [⟨0, 0⟩, ⟨1, 1⟩]⟩ rfl (by simp)

/-! ## The deviation score -/

theorem simulate_fuel_succ (lm : MathLib) (theta T dt : ℚ) (fuel : Nat) :
    ∀ (t x y : ℚ) (up r : List (ℚ × ℚ)),
      simulate lm theta T dt fuel t x y up = some r →
      simulate lm theta T dt (fuel + 1) t x y up = some r := by
  induction fuel with
  | zero =>
    intro t x y up r h
    simp [simulate] at h
  | succ k ih =>
    intro t x y up r h
    rw [simulate] at h ⊢
    by_cases hc : t ≤ T + 1 / 2 * dt
    · rw [if_pos hc] at h ⊢
      exact ih _ _ _ _ _ h
    · rw [if_neg hc] at h ⊢
      exact h

theorem simulate_fuel_mono (lm : MathLib) (theta T dt : ℚ) (fuel k : Nat)
    (t x y : ℚ) (up r : List (ℚ × ℚ))
    (h : simulate lm theta T dt fuel t x y up = some r) :
    simulate lm theta T dt (fuel + k) t x y up = some r := by
  induction k with
  | zero => exact h
  | succ j ih => exact simulate_fuel_succ lm theta T dt (fuel + j) t x y up r ih

theorem simulate_terminates (lm : MathLib) (theta T dt : ℚ) (hdt : 0 < dt) (n : Nat) :
    ∀ (t x y : ℚ) (up : List (ℚ × ℚ)), T + 1 / 2 * dt - t < n * dt →
      ∃ r, simulate lm theta T dt (n + 1) t x y up = some r := by
  induction n with
  | zero =>
    intro t x y up h
    refine ⟨up, ?_⟩
    rw [simulate, if_neg (by
      simp only [Nat.cast_zero, zero_mul] at h
      linarith)]
  | succ k ih =>
    intro t x y up h
    rw [simulate]
    by_cases hc : t ≤ T + 1 / 2 * dt
    · rw [if_pos hc]
      apply ih
      push_cast at h
      by_cases ht : t > T
      · rw [if_pos ht]
        have : (0 : ℚ) ≤ (k : ℚ) * dt := mul_nonneg (Nat.cast_nonneg k) hdt.le
        linarith
      · rw [if_neg ht]
        linarith
    · rw [if_neg hc]
      exact ⟨up, rfl⟩

theorem getMatchedPath_eq_with {E : Type} (eng : GraphEngine E) (cfg : Params) (s : Planner E)
    (lm : MathLib) (fuel : Nat) (curr_time : ℚ) (curr_pose : PoseStamped)
    (plans_ : List (List PoseStamped)) (user_path : List (ℚ × ℚ))
    (hup : userPath lm cfg fuel curr_time s.cmd_vel curr_pose = some user_path)
    (hdev : ∀ plan, eng.pathDeviation s.cmd_vel curr_pose plan =
      angDiffSq lm (intentVector user_path) (maxS lm user_path) plan) :
    getMatchedPath eng cfg s curr_pose plans_ =
      getMatchedPathWith lm cfg fuel curr_time (eng.getAllPathCosts s.voronoi_path) s.cmd_vel
        curr_pose plans_ := by
  have hmap : plans_.map (eng.pathDeviation s.cmd_vel curr_pose) =
      plans_.map (angDiffSq lm (intentVector user_path) (maxS lm user_path)) :=
    List.map_congr_left (fun plan _ => hdev plan)
  simp only [getMatchedPath, getMatchedPathWith, hup, hmap]

/-! ## Claim on the end-to-end scenario -/

theorem demoMath_sqrt_sq (q : ℚ) (hq : 0 ≤ q) : demoMath.sqrt (q * q) = q := by
  have hnum : 0 ≤ q.num := Rat.num_nonneg.mpr hq
  have h1 : (q * q).num = q.num * q.num := Rat.mul_self_num q
  have h2 : (q * q).den = q.den * q.den := Rat.mul_self_den q
  have h3 : (q.num * q.num).toNat = q.num.toNat * q.num.toNat := by
    obtain ⟨k, hk⟩ := Int.eq_ofNat_of_zero_le hnum
    rw [hk]
    norm_cast
  have h4 : ((q.num.toNat : ℤ) : ℚ) = (q.num : ℚ) := by
    rw [Int.toNat_of_nonneg hnum]
  simp only [demoMath, h1, h2, h3, Nat.sqrt_eq]
  have h5 : ((q.num.toNat : ℕ) : ℚ) = (q.num : ℚ) := by
    rw [← h4]
    norm_cast
  rw [h5]
  exact Rat.num_div_den q

/-- C15, evaluation at the failing input: horizon `T = 1`, step `1/10` (so
`time_interval = 1/2`), clock starting at `0`, robot at `(5, 5)` heading along `+x`, pure
forward command.  The heading is `0`, the loop body runs at the clock values `0`, `1/2` and
`1`, each time advancing a full step, so the trajectory ends at `(53/10, 5)` and `max_s` is
`3/10`, whereas `pose + 0.2 * T * (cos th, sin th)` is `(26/5, 5)` and `0.2 * T` is `1/5`. -/
theorem userPath_overshoots_horizon :
    headingAngle demoMath demoParams ⟨1, 0⟩ (demoPose 5 5) = 0 ∧
    userPath demoMath demoParams 4 0 ⟨1, 0⟩ (demoPose 5 5) =
      some [(5, 5), (51 / 10, 5), (26 / 5, 5), (53 / 10, 5)] ∧
    userPath demoMath demoParams 9 0 ⟨1, 0⟩ (demoPose 5 5) =
      some [(5, 5), (51 / 10, 5), (26 / 5, 5), (53 / 10, 5)] ∧
    ((5 : ℚ) + 1 / 5 * demoParams.forward_sim_time * demoMath.cos 0,
      (5 : ℚ) + 1 / 5 * demoParams.forward_sim_time * demoMath.sin 0) = (26 / 5, 5) ∧
    maxS demoMath [(5, 5), (51 / 10, 5), (26 / 5, 5), (53 / 10, 5)] = 3 / 10 ∧
    (3 / 10 : ℚ) ≠ 1 / 5 * demoParams.forward_sim_time := by
  have htheta : headingAngle demoMath demoParams ⟨1, 0⟩ (demoPose 5 5) = 0 := by
    norm_num [headingAngle, demoParams, demoPose, demoMath]
  have hdt : timeInterval demoParams = 1 / 2 := by
    norm_num [timeInterval, demoParams]
  have htr : truncToInt (demoParams.forward_sim_time / (1 / 2)) = 2 := by
    have h2 : demoParams.forward_sim_time / (1 / 2) = 2 := by norm_num [demoParams]
    rw [h2]
    rfl
  have hcos : demoMath.cos 0 = 1 := by norm_num [demoMath]
  have hsin : demoMath.sin 0 = 0 := by norm_num [demoMath]
  refine ⟨htheta, ?_, ?_, ?_, ?_, ?_⟩
  · simp only [userPath, htheta, hdt, htr]
    norm_num [simulate, demoParams, demoPose, hcos, hsin]
  · simp only [userPath, htheta, hdt, htr]
    norm_num [simulate, demoParams, demoPose, hcos, hsin]
  · norm_num [demoParams, hcos, hsin]
  · have h := demoMath_sqrt_sq (3 / 10) (by norm_num)
    norm_num at h
    norm_num [maxS, h]
  · norm_num [demoParams]

/-! ## Claim on global map updates -/

/-- C17, evaluation at the failing input: the global map `[1, 2, 3, 4]` (`2 x 2`) arrives,
a local cell of value `100` is fused at pixel `(0, 0)`, the incremental update
`[5, 6, 7, 8]` arrives, and a local cell of value `90` is fused at pixel `(1, 1)`.  The
patch entry `(0, 1)` recorded against the first map is replayed onto the updated map, so
cell `0`, which the last local map does not mark, ends at `1`, a value of the superseded
map, instead of `5`. -/
theorem globalCostmapUpdateCB_stale_patch :
    (((localCostmapCB demoEngine demoParams
          (globalCostmapCB (demoPlanner demoMap [] false [] [] 0 ⟨0, 0⟩)
            { frame_id := "map", width := 2, height := 2, resolution := 1, origin_x := 0,
              origin_y := 0, data := [1, 2, 3, 4] })
          (demoLocal 0 0 100)).bind
        (fun s2 => globalCostmapUpdateCB demoEngine demoParams s2 [5, 6, 7, 8])).bind
        (fun s3 => localCostmapCB demoEngine demoParams s3 (demoLocal 1 1 90))).map
      (fun s4 => (s4.map.data, s4.map_pixels_backup)) =
      some ([1, 6, 7, 90], [(3, 8)]) := by
  norm_num [localCostmapCB, globalCostmapUpdateCB, globalCostmapCB, demoPlanner, demoMap,
    demoLocal, demoParams, demoEngine, toyEngine, pixelOffset, truncToInt, restorePixels,
    overlayPixels, cellIndex, Option.bind]
  decide

end SharedVoronoi
